import Mathlib

/-!
Verification development for the password-vault engine of the
eb-secure-browser repository.

The development shallowly embeds the three core source modules:

* `encryption.js` (`PasswordEncryption`): AES-256-GCM authenticated
  encryption, PBKDF2 key derivation, password generation and strength
  scoring.  The AES-GCM and PBKDF2 primitives themselves live in Node's
  `crypto` library, outside the repository; they are modelled here by
  concrete executable functions that preserve the library contract the
  code relies on (a deterministic keystream per (key, nonce), an
  authentication tag that is a function of (key, nonce, ciphertext) and is
  checked on decrypt, and a deterministic password-based key-derivation
  function).  Everything the repository itself does — blob layout,
  slicing offsets, state held in the `PasswordEncryption` object, error
  behaviour — is translated directly from the source.

* `database.js` (`PasswordDatabase`): the SQLite store is modelled as a
  record of lists, one per table.  SQL statements are translated
  one-for-one (INSERT OR REPLACE, LIKE filters, ORDER BY ... DESC,
  the history-prune DELETE with its LIMIT 5 subquery).  `CURRENT_TIMESTAMP`
  is an explicit `now : Nat` argument.  Strings stored in encrypted
  columns are byte lists (`List Nat`); base64 transport encoding is a
  bijection and is elided.

* the password-manager coordinator (`PasswordManager`): the session state
  machine (`isLocked`, the auto-lock timer, the resident master key) and
  every vault operation, with JavaScript try/catch translated to
  `Except` results.

Since better-sqlite3 executes each prepared statement in its own implicit
transaction unless `db.transaction` is used (the repository never uses
it), write operations additionally have a commit-trace model: each
`stmt.run(...)` is one single-statement commit.
-/

/-- Bytes of an ASCII/UTF-8 string, used for plaintexts and passwords. -/
def strBytes (s : String) : List Nat := s.data.map Char.toNat

/-! ### Cipher model (interface of Node crypto AES-256-GCM / PBKDF2) -/
/-- Nonce (IV) length in bytes: `this.ivLength = 16` in `encryption.js`. -/
def ivLength : Nat := 16

/-- Authentication-tag length in bytes: `this.tagLength = 16`. -/
def tagLength : Nat := 16

/-- PBKDF2 iteration count: `this.iterations = 100000`. -/
def pmIterations : Nat := 100000

/-- Concrete mixing fold used by the executable stand-ins for the
external crypto primitives. -/
def foldMix (l : List Nat) : Nat :=
  l.foldl (fun a b => (a * 131 + b + 1) % 10000019) 17

/-- Concrete pseudorandom function standing in for the AES-CTR keystream:
deterministic in (key, nonce, position), as the library guarantees. -/
def prf (key iv : List Nat) (i : Nat) : Nat :=
  ((foldMix key + 1) * 7919 + (foldMix iv + 2) * 104729 + (i + 1) * 2654435761) % 256

/-- Keystream of `n` bytes for a given key and nonce. -/
def keystream (key iv : List Nat) (n : Nat) : List Nat :=
  (List.range n).map (prf key iv)

/-- Byte-wise XOR (CTR-mode combination of plaintext and keystream). -/
def xorBytes (a b : List Nat) : List Nat := List.zipWith Nat.xor a b

/-- Ciphertext body produced by the modelled AES-256-GCM for a given key,
nonce and plaintext. -/
def cipherBody (key iv pt : List Nat) : List Nat :=
  xorBytes pt (keystream key iv pt.length)

/-- The 16-byte authentication tag of the modelled AES-256-GCM: a
deterministic function of key, nonce and ciphertext, as `getAuthTag`
returns and `setAuthTag`/`final` verify. -/
def authTag (key iv ct : List Nat) : List Nat :=
  (List.range tagLength).map (fun i => prf key (iv ++ ct ++ [i]) (i + 3))

/-- Blob layout built in `encrypt`: `Buffer.concat([iv, authTag, encrypted])`. -/
def encryptedBlob (key iv pt : List Nat) : List Nat :=
  iv ++ authTag key iv (cipherBody key iv pt) ++ cipherBody key iv pt

/-- Model of `crypto.pbkdf2Sync(masterPassword, salt, iterations, 32, 'sha256')`:
a deterministic 32-byte key from password, salt and iteration count. -/
def deriveKeyBytes (password salt : List Nat) (iterations : Nat) : List Nat :=
  (List.range 32).map (fun i =>
    ((foldMix password + 1) * 6151 + (foldMix salt + 2) * 3079 +
      iterations * 389 + (i + 1) * 1543) % 256)

/-! ### Error taxonomy (JS error strings and thrown errors, as typed results) -/
/-- Typed results standing for the error strings the manager returns and
the errors the encryption layer throws. -/
inductive PMError where
  /-- `'Password manager is locked'` -/
  | vaultLocked
  /-- `'Password is too weak. Please use a stronger password.'` -/
  | weakPassword
  /-- `'Incorrect master password'` -/
  | authFailure
  /-- `'No master password set'` -/
  | noMasterPassword
  /-- `'Password not found'` -/
  | notFound
  /-- `'Encryption not initialized. Call initialize() first.'` -/
  | notInitialized
  /-- a GCM authentication failure thrown by `decipher.final()` -/
  | decryptFailed
  /-- `crypto.randomInt(0, 0)` RangeError when the charset is empty -/
  | randomRangeError
deriving DecidableEq, Repr

/-! ### PasswordEncryption (encryption.js) -/
/-- In-memory state of the `PasswordEncryption` object: the resident
derived key and salt (`this.masterKey`, `this.salt`). -/
structure PasswordEncryption where
  masterKey : Option (List Nat)
  salt : Option (List Nat)
deriving DecidableEq, Repr

/-- Fresh `PasswordEncryption` object: both fields start `null`. -/
def PasswordEncryption.new : PasswordEncryption := ⟨none, none⟩

/-- `deriveKey(masterPassword, salt)`: PBKDF2 with the object's fixed
iteration count. -/
def deriveKey (password salt : List Nat) : List Nat :=
  deriveKeyBytes password salt pmIterations

/-- `encrypt(plaintext)`: fails if no master key is resident, else returns
`iv ‖ authTag ‖ ciphertext`.  The fresh random IV is an explicit argument. -/
def PasswordEncryption.encrypt (e : PasswordEncryption) (iv pt : List Nat) :
    Except PMError (List Nat) :=
  match e.masterKey with
  | none => .error .notInitialized
  | some key => .ok (encryptedBlob key iv pt)

/-- `decrypt(encryptedData)`: splits the blob at the fixed offsets
(`slice(0,16)`, `slice(16,32)`, `slice(32)`), verifies the tag and fails
closed on mismatch. -/
def PasswordEncryption.decrypt (e : PasswordEncryption) (blob : List Nat) :
    Except PMError (List Nat) :=
  match e.masterKey with
  | none => .error .notInitialized
  | some key =>
    let iv := blob.take ivLength
    let tag := (blob.drop ivLength).take tagLength
    let ct := blob.drop (ivLength + tagLength)
    if tag = authTag key iv ct then .ok (xorBytes ct (keystream key iv ct.length))
    else .error .decryptFailed

/-- The fixed marker string encrypted as the stored verifier:
`'EB_PASSWORD_MANAGER_VERIFICATION'`. -/
def verificationMarker : List Nat := strBytes "EB_PASSWORD_MANAGER_VERIFICATION"

/-- Result record of `initialize`: salt, verification hash and iterations,
as persisted by `saveMasterPasswordSettings`. -/
structure InitResult where
  salt : List Nat
  verificationHash : List Nat
  iterations : Nat
deriving DecidableEq, Repr

/-- `initialize(masterPassword)` with a freshly generated salt and the IV
drawn inside the nested `encrypt` call passed explicitly: derives the key,
stores key and salt in the object, and encrypts the verification marker. -/
def PasswordEncryption.initialize (pw salt iv : List Nat) :
    PasswordEncryption × InitResult :=
  let key := deriveKey pw salt
  (⟨some key, some salt⟩,
   { salt := salt, verificationHash := encryptedBlob key iv verificationMarker,
     iterations := pmIterations })

/-- `verifyMasterPassword(masterPassword, saltHex, verificationHash)`:
sets `this.salt` and `this.masterKey` from the candidate password, then
tries to decrypt the stored verifier and compare it with the marker;
any exception yields `false`.  Note that the object state mutated before
the failure — in particular the candidate-derived master key — is kept. -/
def PasswordEncryption.verifyMasterPassword (pw salt vh : List Nat) :
    Bool × PasswordEncryption :=
  let key := deriveKey pw salt
  let e' : PasswordEncryption := ⟨some key, some salt⟩
  match e'.decrypt vh with
  | .ok d => (d = verificationMarker, e')
  | .error _ => (false, e')

/-- `lock()`: overwrites the key buffer with `crypto.randomFillSync` and
drops both references; afterwards no key is resident. -/
def PasswordEncryption.lock (_e : PasswordEncryption) : PasswordEncryption :=
  ⟨none, none⟩

/-- `isUnlocked()`: `this.masterKey !== null`. -/
def PasswordEncryption.isUnlocked (e : PasswordEncryption) : Bool :=
  e.masterKey ≠ none

/-! ### Generic insertion sort (model of SQL ORDER BY ... DESC) -/
/-- Insert `a` into `l` before the first element `b` with `le a b` false. -/
def insertOrd {α : Type} (le : α → α → Bool) (a : α) : List α → List α
  | [] => [a]
  | b :: bs => if le a b then a :: b :: bs else b :: insertOrd le a bs

/-- Insertion sort by the boolean comparator `le` (`le a b` means `a` may
come before `b`). -/
def sortOrd {α : Type} (le : α → α → Bool) : List α → List α
  | [] => []
  | a :: as => insertOrd le a (sortOrd le as)

/-! ### Data rows (tables created in database.js) -/
deriving instance DecidableEq for Except

/-- ASCII lowering, modelling SQLite LIKE case-insensitivity for ASCII. -/
def asciiLower (c : Char) : Char :=
  if 'A' ≤ c ∧ c ≤ 'Z' then Char.ofNat (c.toNat + 32) else c

/-- Model of `column LIKE '%' || q || '%'`: case-insensitive substring. -/
def likeContains (hay q : String) : Bool :=
  decide ((q.data.map asciiLower) <:+: (hay.data.map asciiLower))

/-- A row of the `passwords` table.  `tags` is stored as a JSON array
string in the source; the encoding is a bijection on lists of strings and
is elided. -/
structure CredRow where
  id : String
  domain : String
  username : String
  encrypted_password : List Nat
  encrypted_notes : Option (List Nat)
  favicon : Option String
  tags : List String
  created_at : Nat
  modified_at : Nat
  last_used : Option Nat
  use_count : Nat
deriving DecidableEq, Repr

/-- A row of the `password_history` table (`id` is the AUTOINCREMENT key). -/
structure HistoryRow where
  id : Nat
  password_id : String
  encrypted_old_password : List Nat
  changed_at : Nat
deriving DecidableEq, Repr

/-- A row of the `secure_notes` table. -/
structure NoteRow where
  id : String
  title : String
  encrypted_content : List Nat
  created_at : Nat
  modified_at : Nat
deriving DecidableEq, Repr

/-- The `password_settings` singleton row. -/
structure Settings where
  salt : List Nat
  iterations : Nat
  verification_hash : List Nat
  created_at : Nat
  last_accessed : Option Nat
deriving DecidableEq, Repr

/-- The SQLite store of `database.js`: one field per table, plus the next
AUTOINCREMENT value for `password_history`. -/
structure PasswordDatabase where
  settings : Option Settings
  passwords : List CredRow
  history : List HistoryRow
  notes : List NoteRow
  nextHistoryId : Nat
deriving DecidableEq, Repr

/-- The store right after `createTables` on a fresh file: all tables empty. -/
def PasswordDatabase.empty : PasswordDatabase :=
  { settings := none, passwords := [], history := [], notes := [], nextHistoryId := 1 }

/-- SQL NULL sorts below every value; DESC therefore puts NULL last. -/
def optKey : Option Nat → Nat
  | none => 0
  | some t => t + 1

/-- Comparator for `ORDER BY modified_at DESC`. -/
def credModifiedGE (a b : CredRow) : Bool := b.modified_at ≤ a.modified_at

/-- Comparator for `ORDER BY last_used DESC, modified_at DESC`. -/
def credRecentGE (a b : CredRow) : Bool :=
  optKey b.last_used < optKey a.last_used ||
    (optKey b.last_used = optKey a.last_used && b.modified_at ≤ a.modified_at)

/-- Comparator for `ORDER BY changed_at DESC` on history rows, with the
rowid as the deterministic tie-break. -/
def histRecentGE (a b : HistoryRow) : Bool :=
  b.changed_at < a.changed_at || (b.changed_at = a.changed_at && b.id ≤ a.id)

/-- Comparator for `ORDER BY modified_at DESC` on notes. -/
def noteModifiedGE (a b : NoteRow) : Bool := b.modified_at ≤ a.modified_at

/-- Lexicographic Bool comparison of strings, modelling JS `Array.sort()`. -/
def strLE (a b : String) : Bool := a ≤ b

/-! ### PasswordDatabase operations (database.js) -/
/-- `hasMasterPassword()`: `SELECT COUNT(*) FROM password_settings > 0`. -/
def PasswordDatabase.hasMasterPassword (db : PasswordDatabase) : Bool :=
  db.settings.isSome

/-- `saveMasterPasswordSettings(salt, verificationHash, iterations)`:
deletes any existing settings row and inserts the new one. -/
def PasswordDatabase.saveMasterPasswordSettings (db : PasswordDatabase)
    (salt vh : List Nat) (iterations now : Nat) : PasswordDatabase :=
  let st : Settings :=
    { salt := salt, iterations := iterations, verification_hash := vh,
      created_at := now, last_accessed := none }
  { db with settings := some st }

/-- `getMasterPasswordSettings()`. -/
def PasswordDatabase.getMasterPasswordSettings (db : PasswordDatabase) :
    Option Settings := db.settings

/-- `updateLastAccessed()`. -/
def PasswordDatabase.updateLastAccessed (db : PasswordDatabase) (now : Nat) :
    PasswordDatabase :=
  { db with settings := db.settings.map (fun st => { st with last_accessed := some now }) }

/-- Field bundle bound by `savePassword`'s INSERT OR REPLACE statement. -/
structure SaveData where
  id : String
  domain : String
  username : String
  encrypted_password : List Nat
  encrypted_notes : Option (List Nat)
  favicon : Option String
  tags : List String
deriving DecidableEq, Repr

/-- `savePassword(passwordData)`: INSERT OR REPLACE by primary key `id`.
Columns absent from the statement (`created_at`, `last_used`, `use_count`)
take their table defaults on the replaced row. -/
def PasswordDatabase.savePassword (db : PasswordDatabase) (d : SaveData)
    (now : Nat) : PasswordDatabase :=
  { db with passwords :=
      db.passwords.filter (fun r => !(r.id = d.id : Bool)) ++
        [{ id := d.id, domain := d.domain, username := d.username,
           encrypted_password := d.encrypted_password,
           encrypted_notes := d.encrypted_notes, favicon := d.favicon,
           tags := d.tags, created_at := now, modified_at := now,
           last_used := none, use_count := 0 }] }

/-- `getPasswords(domain)`: optional LIKE filter on `domain`, ordered by
recency. -/
def PasswordDatabase.getPasswords (db : PasswordDatabase)
    (domain : Option String) : List CredRow :=
  match domain with
  | some d => sortOrd credRecentGE (db.passwords.filter (fun r => likeContains r.domain d))
  | none => sortOrd credModifiedGE db.passwords

/-- `getPassword(id)`: `SELECT * FROM passwords WHERE id = ?`. -/
def PasswordDatabase.getPassword (db : PasswordDatabase) (id : String) :
    Option CredRow :=
  db.passwords.find? (fun r => r.id = id)

/-- `updatePasswordUsage(id)`: bump `use_count` and set `last_used`. -/
def PasswordDatabase.updatePasswordUsage (db : PasswordDatabase) (id : String)
    (now : Nat) : PasswordDatabase :=
  { db with passwords := db.passwords.map (fun r =>
      if r.id = id then { r with last_used := some now, use_count := r.use_count + 1 }
      else r) }

/-- Rows of `password_history` for one credential, in table order. -/
def PasswordDatabase.historyFor (db : PasswordDatabase) (pid : String) :
    List HistoryRow :=
  db.history.filter (fun r => r.password_id = pid)

/-- `addToPasswordHistory(passwordId, encryptedPassword)`: one INSERT,
then one DELETE keeping only the five most recent rows for that
credential (the LIMIT 5 subquery ordered by `changed_at` DESC). -/
def PasswordDatabase.addToPasswordHistory (db : PasswordDatabase)
    (pid : String) (encPw : List Nat) (now : Nat) : PasswordDatabase :=
  let row : HistoryRow :=
    { id := db.nextHistoryId, password_id := pid,
      encrypted_old_password := encPw, changed_at := now }
  let hist := db.history ++ [row]
  let keepIds := ((sortOrd histRecentGE
      (hist.filter (fun r => r.password_id = pid))).take 5).map (fun r => r.id)
  { db with
      history := hist.filter (fun r => !(r.password_id = pid : Bool) || keepIds.contains r.id),
      nextHistoryId := db.nextHistoryId + 1 }

/-- `getPasswordHistory(passwordId)`. -/
def PasswordDatabase.getPasswordHistory (db : PasswordDatabase) (pid : String) :
    List HistoryRow :=
  sortOrd histRecentGE (db.historyFor pid)

/-- `deletePassword(id)`: pushes the current encrypted password to history
(when the row exists), then deletes the row.  Foreign-key cascading is
not active (the code never issues `PRAGMA foreign_keys = ON`), so history
rows stay behind. -/
def PasswordDatabase.deletePassword (db : PasswordDatabase) (id : String)
    (now : Nat) : PasswordDatabase :=
  let db1 := match db.getPassword id with
    | some p => db.addToPasswordHistory id p.encrypted_password now
    | none => db
  { db1 with passwords := db1.passwords.filter (fun r => !(r.id = id : Bool)) }

/-- Field bundle bound by `saveSecureNote`'s INSERT OR REPLACE statement. -/
structure NoteSaveData where
  id : String
  title : String
  encrypted_content : List Nat
deriving DecidableEq, Repr

/-- `saveSecureNote(noteData)`: INSERT OR REPLACE by `id`. -/
def PasswordDatabase.saveSecureNote (db : PasswordDatabase) (d : NoteSaveData)
    (now : Nat) : PasswordDatabase :=
  { db with notes :=
      db.notes.filter (fun n => !(n.id = d.id : Bool)) ++
        [{ id := d.id, title := d.title, encrypted_content := d.encrypted_content,
           created_at := now, modified_at := now }] }

/-- `getSecureNotes()`: all notes ordered by `modified_at` DESC. -/
def PasswordDatabase.getSecureNotes (db : PasswordDatabase) : List NoteRow :=
  sortOrd noteModifiedGE db.notes

/-- `deleteSecureNote(id)`. -/
def PasswordDatabase.deleteSecureNote (db : PasswordDatabase) (id : String) :
    PasswordDatabase :=
  { db with notes := db.notes.filter (fun n => !(n.id = id : Bool)) }

/-- `searchPasswords(query)`: LIKE on `domain` OR `username`, ordered by
recency. -/
def PasswordDatabase.searchPasswords (db : PasswordDatabase) (q : String) :
    List CredRow :=
  sortOrd credRecentGE (db.passwords.filter (fun r =>
    likeContains r.domain q || likeContains r.username q))

/-- Worker for `firstOccurrences`: keep a key when it has not been seen. -/
def firstOccurrencesGo {α : Type} [DecidableEq α] (seen : List α) :
    List α → List α
  | [] => []
  | a :: as =>
    if a ∈ seen then firstOccurrencesGo seen as
    else a :: firstOccurrencesGo (a :: seen) as

/-- First-occurrence deduplication, modelling JS `Map`/`Set` key order. -/
def firstOccurrences {α : Type} [DecidableEq α] (l : List α) : List α :=
  firstOccurrencesGo [] l

/-- `getAllTags()`: union of all tag arrays, deduplicated, sorted. -/
def PasswordDatabase.getAllTags (db : PasswordDatabase) : List String :=
  sortOrd strLE (firstOccurrences ((db.getPasswords none).flatMap (fun r => r.tags)))

/-- `findDuplicatePasswords()`: groups rows by their stored
`encrypted_password` ciphertext (a `Map` keyed on the ciphertext string)
and returns the groups with more than one member. -/
def PasswordDatabase.findDuplicatePasswords (db : PasswordDatabase) :
    List (List CredRow) :=
  let rows := db.getPasswords none
  ((firstOccurrences (rows.map (fun r => r.encrypted_password))).map
    (fun k => rows.filter (fun r => r.encrypted_password = k))).filter
    (fun g => decide (1 < g.length))

/-- Aggregates returned by `getStatistics()`. -/
structure StatsResult where
  totalPasswords : Nat
  totalNotes : Nat
  recentlyUsed : Nat
  duplicateCount : Nat
  allTags : List String
deriving DecidableEq, Repr

/-- `getStatistics()`: counts, entries used in the last 7 days
(`last_used > datetime('now','-7 days')`), duplicate groups and tags. -/
def PasswordDatabase.getStatistics (db : PasswordDatabase) (now : Nat) :
    StatsResult :=
  { totalPasswords := db.passwords.length,
    totalNotes := db.notes.length,
    recentlyUsed := (db.passwords.filter (fun r =>
      match r.last_used with
      | some t => decide (now < t + 604800)
      | none => false)).length,
    duplicateCount := (db.findDuplicatePasswords).length,
    allTags := db.getAllTags }

/-- The bundle produced by `exportData()`. -/
structure ExportBundle where
  settings : Option Settings
  passwords : List CredRow
  notes : List NoteRow
  exportDate : Nat
deriving DecidableEq, Repr

/-- `exportData()`. -/
def PasswordDatabase.exportData (db : PasswordDatabase) (now : Nat) :
    ExportBundle :=
  { settings := db.getMasterPasswordSettings,
    passwords := db.getPasswords none,
    notes := db.getSecureNotes,
    exportDate := now }

/-- `importData(data)`: replays `savePassword` / `saveSecureNote` on every
bundled row and reports the counts. -/
def PasswordDatabase.importData (db : PasswordDatabase)
    (passwords : List SaveData) (notes : List NoteSaveData) (now : Nat) :
    (Nat × Nat) × PasswordDatabase :=
  let db1 := passwords.foldl (fun acc p => acc.savePassword p now) db
  let db2 := notes.foldl (fun acc n => acc.saveSecureNote n now) db1
  ((passwords.length, notes.length), db2)

/-! ### Entry encryption (encryptPasswordEntry / decryptPasswordEntry) -/
/-- Input bundle for adding or updating a credential.  The repository
passes a loose object; entries whose `password` field is present are
modelled (the flows exercised by the vault interface always carry one). -/
structure PasswordInput where
  id : Option String
  domain : String
  username : String
  password : List Nat
  notes : Option (List Nat)
  favicon : Option String
  tags : List String
deriving DecidableEq, Repr

/-- `encryptPasswordEntry(passwordEntry)`: copies the plaintext columns
and encrypts `password` (and `notes` when present).  The IVs drawn inside
the nested `encrypt` calls are explicit arguments. -/
def PasswordEncryption.encryptPasswordEntry (e : PasswordEncryption)
    (entryId : String) (d : PasswordInput) (ivp ivn : List Nat) :
    Except PMError SaveData := do
  let ep ← e.encrypt ivp d.password
  let en ← match d.notes with
    | none => pure none
    | some nt => (e.encrypt ivn nt).map some
  pure { id := entryId, domain := d.domain, username := d.username,
         encrypted_password := ep, encrypted_notes := en,
         favicon := d.favicon, tags := d.tags }

/-- A decrypted credential entry as returned by `decryptPasswordEntry`. -/
structure DecryptedEntry where
  id : String
  domain : String
  username : String
  favicon : Option String
  tags : List String
  created_at : Nat
  modified_at : Nat
  last_used : Option Nat
  use_count : Nat
  password : List Nat
  notes : Option (List Nat)
deriving DecidableEq, Repr

/-- `decryptPasswordEntry(encryptedEntry)`: copies the plaintext columns
and decrypts the encrypted ones; a failed decrypt throws out of the
function. -/
def PasswordEncryption.decryptPasswordEntry (e : PasswordEncryption)
    (r : CredRow) : Except PMError DecryptedEntry := do
  let pw ← e.decrypt r.encrypted_password
  let nt ← match r.encrypted_notes with
    | none => pure none
    | some en => (e.decrypt en).map some
  pure { id := r.id, domain := r.domain, username := r.username,
         favicon := r.favicon, tags := r.tags, created_at := r.created_at,
         modified_at := r.modified_at, last_used := r.last_used,
         use_count := r.use_count, password := pw, notes := nt }

/-! ### Password generation and strength scoring (encryption.js) -/
/-- Defaulted option bag of `generatePassword`. -/
structure GenOptions where
  length : Nat := 16
  uppercase : Bool := true
  lowercase : Bool := true
  numbers : Bool := true
  symbols : Bool := true
  excludeSimilar : Bool := false
  excludeAmbiguous : Bool := false
deriving DecidableEq, Repr

def lowerChars : List Char := "abcdefghijklmnopqrstuvwxyz".data

def upperChars : List Char := "ABCDEFGHIJKLMNOPQRSTUVWXYZ".data

def digitChars : List Char := "0123456789".data

def symbolChars : List Char := "!@#$%^&*()_+-=[]\x7b\x7d|;:,.<>?".data

/-- Characters removed by the `excludeSimilar` regex `[ilLI|1oO0]`. -/
def similarChars : List Char := "ilLI|1oO0".data

/-- Characters removed by the `excludeAmbiguous` regex. -/
def ambiguousChars : List Char := "\x7b\x7d[]()/\\\x27\x22~,;.<>".data

/-- The character set `generatePassword` draws from: enabled classes
concatenated, then the two optional exclusion passes. -/
def buildCharset (o : GenOptions) : List Char :=
  let cs := (if o.lowercase then lowerChars else []) ++
    (if o.uppercase then upperChars else []) ++
    (if o.numbers then digitChars else []) ++
    (if o.symbols then symbolChars else [])
  let cs := if o.excludeSimilar then cs.filter (fun c => !(similarChars.contains c)) else cs
  if o.excludeAmbiguous then cs.filter (fun c => !(ambiguousChars.contains c)) else cs

/-- `generatePassword(options)`: draws `options.length` characters whose
indices come from `crypto.randomInt(0, charset.length)`, modelled by an
arbitrary stream `rng` reduced modulo the charset size.  With an empty
charset and a positive length, `randomInt(0, 0)` throws a RangeError. -/
def generatePasswordEnc (o : GenOptions) (rng : Nat → Nat) :
    Except PMError (List Char) :=
  let cs := buildCharset o
  if cs.length = 0 then
    if o.length = 0 then .ok [] else .error .randomRangeError
  else
    .ok ((List.range o.length).map (fun i => cs.getD (rng i % cs.length) 'a'))

def isLowerCh (c : Char) : Bool := 'a' ≤ c && c ≤ 'z'

def isUpperCh (c : Char) : Bool := 'A' ≤ c && c ≤ 'Z'

def isDigitCh (c : Char) : Bool := '0' ≤ c && c ≤ '9'

/-- The regex `/(.)\1{2,}/`: some run of three or more equal characters. -/
def hasRepeatRun : List Char → Bool
  | a :: b :: c :: rest => (a = b && b = c) || hasRepeatRun (b :: c :: rest)
  | _ => false

/-- Result record of `checkPasswordStrength`. -/
structure StrengthResult where
  score : Nat
  strength : String
  feedback : List String
deriving DecidableEq, Repr

/-- `checkPasswordStrength(password)`: length tiers, character classes,
pattern penalties; the label is bucketed from the raw (unclamped) score
and the returned score is clamped to [0, 10]. -/
def checkPasswordStrength (password : List Char) : StrengthResult :=
  let score : Int :=
    (if 8 ≤ password.length then 1 else 0) +
    (if 12 ≤ password.length then 1 else 0) +
    (if 16 ≤ password.length then 1 else 0) +
    (if password.any isLowerCh then 1 else 0) +
    (if password.any isUpperCh then 1 else 0) +
    (if password.any isDigitCh then 1 else 0) +
    (if password.any (fun c => !(isLowerCh c || isUpperCh c || isDigitCh c)) then 1 else 0)
  let repeats := hasRepeatRun password
  let allDigits := decide (password.length ≠ 0) && password.all isDigitCh
  let allAlpha := decide (password.length ≠ 0) &&
    password.all (fun c => isLowerCh c || isUpperCh c)
  let score := score - (if repeats then 1 else 0) - (if allDigits then 1 else 0) -
    (if allAlpha then 1 else 0)
  let feedback :=
    (if repeats then ["Avoid repeating characters"] else []) ++
    (if allDigits then ["Use more than just numbers"] else []) ++
    (if allAlpha then ["Add numbers or symbols"] else [])
  let strength :=
    if 7 ≤ score then "Very Strong"
    else if 5 ≤ score then "Strong"
    else if 3 ≤ score then "Fair"
    else if 2 ≤ score then "Weak"
    else "Very Weak"
  { score := (max 0 (min score 10)).toNat, strength := strength, feedback := feedback }

/-! ### PasswordManager (the coordinator) -/
/-- Manager state: the `PasswordEncryption` object, the store, the
`isLocked` flag and whether the auto-lock timer is armed
(`autoLockTimer !== null`). -/
structure PMState where
  encryption : PasswordEncryption
  database : PasswordDatabase
  isLocked : Bool
  timerArmed : Bool
deriving DecidableEq, Repr

/-- State after `new PasswordManager()` plus `initialize()` on a fresh
profile: locked, no key, empty store, no timer. -/
def PMState.initial : PMState :=
  { encryption := PasswordEncryption.new, database := PasswordDatabase.empty,
    isLocked := true, timerArmed := false }

/-- `resetAutoLockTimer()`: cancel and re-arm. -/
def PMState.resetAutoLockTimer (s : PMState) : PMState :=
  { s with timerArmed := true }

/-- `hasMasterPassword()`. -/
def PMState.hasMasterPassword (s : PMState) : Bool :=
  s.database.hasMasterPassword

/-- `setupMasterPassword(masterPassword)`: strength gate, then
`encryption.initialize`, then persist settings and unlock. -/
def PMState.setupMasterPassword (s : PMState) (pw : String)
    (salt iv : List Nat) (now : Nat) : Except PMError Unit × PMState :=
  let strength := checkPasswordStrength pw.data
  if strength.score < 3 then (.error .weakPassword, s)
  else
    let (e', res) := PasswordEncryption.initialize (strBytes pw) salt iv
    let db' := s.database.saveMasterPasswordSettings res.salt res.verificationHash
      res.iterations now
    (.ok (), { s with encryption := e', database := db', isLocked := false,
                      timerArmed := true })

/-- `unlock(masterPassword)`: missing settings short-circuit, then
`verifyMasterPassword` (which resides the candidate-derived key in the
encryption object whether or not it verifies). -/
def PMState.unlock (s : PMState) (pw : String) (now : Nat) :
    Except PMError Unit × PMState :=
  match s.database.getMasterPasswordSettings with
  | none => (.error .noMasterPassword, s)
  | some st =>
    let (valid, e') := PasswordEncryption.verifyMasterPassword (strBytes pw)
      st.salt st.verification_hash
    if valid then
      (.ok (), { s with encryption := e',
                        database := s.database.updateLastAccessed now,
                        isLocked := false, timerArmed := true })
    else
      (.error .authFailure, { s with encryption := e' })

/-- `lock()`: zeroize and drop the key, set the flag, cancel the timer. -/
def PMState.lock (s : PMState) : Except PMError Unit × PMState :=
  (.ok (), { s with encryption := s.encryption.lock, isLocked := true,
                    timerArmed := false })

/-- `addPassword(passwordData)`: lock gate, timer reset, encrypt, save.
`fresh` is the `uuidv4()` drawn when the input has no id. -/
def PMState.addPassword (s : PMState) (d : PasswordInput) (fresh : String)
    (ivp ivn : List Nat) (now : Nat) : Except PMError String × PMState :=
  if s.isLocked then (.error .vaultLocked, s)
  else
    let s := s.resetAutoLockTimer
    let entryId := d.id.getD fresh
    match s.encryption.encryptPasswordEntry entryId d ivp ivn with
    | .error e => (.error e, s)
    | .ok enc => (.ok entryId, { s with database := s.database.savePassword enc now })

/-- `getPasswords(domain)`: lock gate, then decrypt each row with a
per-row try/catch, dropping rows that fail. -/
def PMState.getPasswords (s : PMState) (domain : Option String) :
    Except PMError (List DecryptedEntry) × PMState :=
  if s.isLocked then (.error .vaultLocked, s)
  else
    let s := s.resetAutoLockTimer
    let rows := s.database.getPasswords domain
    (.ok (rows.filterMap (fun r => (s.encryption.decryptPasswordEntry r).toOption)), s)

/-- `getPassword(id)`: lock gate, lookup, decrypt, then bump the usage
statistics of the entry. -/
def PMState.getPassword (s : PMState) (id : String) (now : Nat) :
    Except PMError DecryptedEntry × PMState :=
  if s.isLocked then (.error .vaultLocked, s)
  else
    let s := s.resetAutoLockTimer
    match s.database.getPassword id with
    | none => (.error .notFound, s)
    | some row =>
      match s.encryption.decryptPasswordEntry row with
      | .error e => (.error e, s)
      | .ok dec =>
        (.ok dec, { s with database := s.database.updatePasswordUsage id now })

/-- `updatePassword(id, passwordData)`: lock gate, lookup, push the old
encrypted password to history, then encrypt and save the new entry. -/
def PMState.updatePassword (s : PMState) (id : String) (d : PasswordInput)
    (ivp ivn : List Nat) (now : Nat) : Except PMError Unit × PMState :=
  if s.isLocked then (.error .vaultLocked, s)
  else
    let s := s.resetAutoLockTimer
    match s.database.getPassword id with
    | none => (.error .notFound, s)
    | some existing =>
      let s := { s with database :=
        s.database.addToPasswordHistory id existing.encrypted_password now }
      match s.encryption.encryptPasswordEntry id { d with id := some id } ivp ivn with
      | .error e => (.error e, s)
      | .ok enc => (.ok (), { s with database := s.database.savePassword enc now })

/-- `deletePassword(id)`. -/
def PMState.deletePassword (s : PMState) (id : String) (now : Nat) :
    Except PMError Unit × PMState :=
  if s.isLocked then (.error .vaultLocked, s)
  else
    let s := s.resetAutoLockTimer
    (.ok (), { s with database := s.database.deletePassword id now })

/-- `searchPasswords(query)`: lock gate, per-row try/catch decryption. -/
def PMState.searchPasswords (s : PMState) (q : String) :
    Except PMError (List DecryptedEntry) × PMState :=
  if s.isLocked then (.error .vaultLocked, s)
  else
    let s := s.resetAutoLockTimer
    let rows := s.database.searchPasswords q
    (.ok (rows.filterMap (fun r => (s.encryption.decryptPasswordEntry r).toOption)), s)

/-- Input bundle for `addSecureNote`. -/
structure NoteInput where
  id : Option String
  title : String
  content : List Nat
deriving DecidableEq, Repr

/-- `addSecureNote(noteData)`. -/
def PMState.addSecureNote (s : PMState) (d : NoteInput) (fresh : String)
    (iv : List Nat) (now : Nat) : Except PMError String × PMState :=
  if s.isLocked then (.error .vaultLocked, s)
  else
    let s := s.resetAutoLockTimer
    let noteId := d.id.getD fresh
    match s.encryption.encrypt iv d.content with
    | .error e => (.error e, s)
    | .ok ec =>
      let nd : NoteSaveData := { id := noteId, title := d.title, encrypted_content := ec }
      (.ok noteId, { s with database := s.database.saveSecureNote nd now })

/-- A note row together with its decrypted content, as built by the
spread `{...note, content: decrypt(...)}`. -/
structure DecryptedNote where
  id : String
  title : String
  encrypted_content : List Nat
  created_at : Nat
  modified_at : Nat
  content : List Nat
deriving DecidableEq, Repr

/-- The `.map` inside `getSecureNotes`: no per-row try/catch, so the
first decryption failure propagates out of the whole batch. -/
def decryptNotesList (e : PasswordEncryption) :
    List NoteRow → Except PMError (List DecryptedNote)
  | [] => .ok []
  | n :: ns =>
    match e.decrypt n.encrypted_content with
    | .error er => .error er
    | .ok c =>
      match decryptNotesList e ns with
      | .error er => .error er
      | .ok rest =>
        let dn : DecryptedNote :=
          { id := n.id, title := n.title, encrypted_content := n.encrypted_content,
            created_at := n.created_at, modified_at := n.modified_at, content := c }
        .ok (dn :: rest)

/-- `getSecureNotes()`: lock gate, then the whole batch decrypts inside
one try/catch. -/
def PMState.getSecureNotes (s : PMState) :
    Except PMError (List DecryptedNote) × PMState :=
  if s.isLocked then (.error .vaultLocked, s)
  else
    let s := s.resetAutoLockTimer
    (decryptNotesList s.encryption s.database.getSecureNotes, s)

/-- `deleteSecureNote(id)`. -/
def PMState.deleteSecureNote (s : PMState) (id : String) :
    Except PMError Unit × PMState :=
  if s.isLocked then (.error .vaultLocked, s)
  else
    let s := s.resetAutoLockTimer
    (.ok (), { s with database := s.database.deleteSecureNote id })

/-- `getStatistics()`. -/
def PMState.getStatistics (s : PMState) (now : Nat) :
    Except PMError StatsResult × PMState :=
  if s.isLocked then (.error .vaultLocked, s)
  else
    let s := s.resetAutoLockTimer
    (.ok (s.database.getStatistics now), s)

/-- `findDuplicatePasswords()` (manager level): the stored ciphertext
groups, each decrypted with a per-row try/catch. -/
def PMState.findDuplicatePasswords (s : PMState) :
    Except PMError (List (List DecryptedEntry)) × PMState :=
  if s.isLocked then (.error .vaultLocked, s)
  else
    let s := s.resetAutoLockTimer
    (.ok ((s.database.findDuplicatePasswords).map (fun g =>
      g.filterMap (fun r => (s.encryption.decryptPasswordEntry r).toOption))), s)

/-- `getAllTags()` (manager level). -/
def PMState.getAllTags (s : PMState) : Except PMError (List String) × PMState :=
  if s.isLocked then (.error .vaultLocked, s)
  else
    let s := s.resetAutoLockTimer
    (.ok s.database.getAllTags, s)

/-- `exportData()`. -/
def PMState.exportData (s : PMState) (now : Nat) :
    Except PMError ExportBundle × PMState :=
  if s.isLocked then (.error .vaultLocked, s)
  else
    let s := s.resetAutoLockTimer
    (.ok (s.database.exportData now), s)

/-- `importData(data)`. -/
def PMState.importData (s : PMState) (passwords : List SaveData)
    (notes : List NoteSaveData) (now : Nat) :
    Except PMError (Nat × Nat) × PMState :=
  if s.isLocked then (.error .vaultLocked, s)
  else
    let s := s.resetAutoLockTimer
    let (counts, db') := s.database.importData passwords notes now
    (.ok counts, { s with database := db' })

/-- `generatePassword(options)` (manager level): generates, then scores. -/
def PMState.generatePassword (s : PMState) (o : GenOptions) (rng : Nat → Nat) :
    Except PMError (List Char × StrengthResult) × PMState :=
  match generatePasswordEnc o rng with
  | .error e => (.error e, s)
  | .ok p => (.ok (p, checkPasswordStrength p), s)

/-! ### Commit-trace model for write operations

better-sqlite3 wraps a statement in a transaction only when
`db.transaction` is used; the repository never uses it, so every
`stmt.run(...)` commits on its own.  A trace is a list of transactions,
each a list of the statements it contains; here every transaction is a
singleton. -/
/-- One SQL write statement executed by the flows around
`addToPasswordHistory`/`savePassword`. -/
inductive DBStatement where
  /-- the INSERT INTO password_history of `addToPasswordHistory` -/
  | insertHistory (passwordId : String)
  /-- the pruning DELETE of `addToPasswordHistory` -/
  | pruneHistory (passwordId : String)
  /-- the INSERT OR REPLACE of `savePassword` -/
  | replacePassword (id : String)
deriving DecidableEq, Repr

/-- Transactions committed by `addToPasswordHistory`: two single-statement
autocommits (no surrounding BEGIN). -/
def addToPasswordHistoryCommits (pid : String) : List (List DBStatement) :=
  [[.insertHistory pid], [.pruneHistory pid]]

/-- Transactions committed by one `updatePassword(id, passwordData)` call:
the history push, then the save, each statement its own autocommit.  The
trace is empty when the operation fails before writing. -/
def PMState.updatePasswordCommits (s : PMState) (id : String)
    (d : PasswordInput) (ivp ivn : List Nat) : List (List DBStatement) :=
  if s.isLocked then []
  else
    match s.database.getPassword id with
    | none => []
    | some _ =>
      addToPasswordHistoryCommits id ++
        (match s.encryption.encryptPasswordEntry id { d with id := some id } ivp ivn with
         | .error _ => []
         | .ok _ => [[.replacePassword id]])

/-! ### Reachable manager states -/
/-- States reachable from a fresh profile through the manager's operation
set, with the random inputs (salts, IVs, uuids, RNG draws) and the clock
universally quantified. -/
inductive Reachable : PMState → Prop where
  | init : Reachable PMState.initial
  | setupStep (s : PMState) (pw : String) (salt iv : List Nat) (now : Nat) :
      Reachable s → Reachable (s.setupMasterPassword pw salt iv now).2
  | unlockStep (s : PMState) (pw : String) (now : Nat) :
      Reachable s → Reachable (s.unlock pw now).2
  | lockStep (s : PMState) : Reachable s → Reachable s.lock.2
  | addPasswordStep (s : PMState) (d : PasswordInput) (fresh : String)
      (ivp ivn : List Nat) (now : Nat) :
      Reachable s → Reachable (s.addPassword d fresh ivp ivn now).2
  | getPasswordsStep (s : PMState) (domain : Option String) :
      Reachable s → Reachable (s.getPasswords domain).2
  | getPasswordStep (s : PMState) (id : String) (now : Nat) :
      Reachable s → Reachable (s.getPassword id now).2
  | updatePasswordStep (s : PMState) (id : String) (d : PasswordInput)
      (ivp ivn : List Nat) (now : Nat) :
      Reachable s → Reachable (s.updatePassword id d ivp ivn now).2
  | deletePasswordStep (s : PMState) (id : String) (now : Nat) :
      Reachable s → Reachable (s.deletePassword id now).2
  | searchPasswordsStep (s : PMState) (q : String) :
      Reachable s → Reachable (s.searchPasswords q).2
  | addSecureNoteStep (s : PMState) (d : NoteInput) (fresh : String)
      (iv : List Nat) (now : Nat) :
      Reachable s → Reachable (s.addSecureNote d fresh iv now).2
  | getSecureNotesStep (s : PMState) :
      Reachable s → Reachable s.getSecureNotes.2
  | deleteSecureNoteStep (s : PMState) (id : String) :
      Reachable s → Reachable (s.deleteSecureNote id).2
  | getStatisticsStep (s : PMState) (now : Nat) :
      Reachable s → Reachable (s.getStatistics now).2
  | findDuplicatesStep (s : PMState) :
      Reachable s → Reachable s.findDuplicatePasswords.2
  | getAllTagsStep (s : PMState) :
      Reachable s → Reachable s.getAllTags.2
  | exportDataStep (s : PMState) (now : Nat) :
      Reachable s → Reachable (s.exportData now).2
  | importDataStep (s : PMState) (passwords : List SaveData)
      (notes : List NoteSaveData) (now : Nat) :
      Reachable s → Reachable (s.importData passwords notes now).2
  | generatePasswordStep (s : PMState) (o : GenOptions) (rng : Nat → Nat) :
      Reachable s → Reachable (s.generatePassword o rng).2

/-! ### Concrete states used by witnesses and counterexamples -/
/-- State after `setupMasterPassword('Str0ngP@ss1')` on a fresh profile
(salt and verifier IV made explicit). -/
def sSetup : PMState :=
  (PMState.initial.setupMasterPassword "Str0ngP@ss1" (List.range 32) (List.range 16) 1000).2

/-- `sSetup` after `lock()`. -/
def sLocked : PMState := sSetup.lock.2

/-- `sLocked` after `unlock('wrong')` — a failed unlock. -/
def sFailedUnlock : PMState := (sLocked.unlock "wrong" 1001).2

/-- The settings row persisted by the setup above. -/
def stSetup : Settings :=
  { salt := List.range 32, iterations := pmIterations,
    verification_hash :=
      encryptedBlob (deriveKey (strBytes "Str0ngP@ss1") (List.range 32))
        (List.range 16) verificationMarker,
    created_at := 1000, last_accessed := none }

/-- The master key derived at the setup above. -/
def keySetup : List Nat := deriveKey (strBytes "Str0ngP@ss1") (List.range 32)

/-- Credential input used in the concrete add/update runs: the password
plaintext varies with `k`. -/
def credInput (k : Nat) : PasswordInput :=
  { id := some "cred1", domain := "example.com", username := "a@b.com",
    password := strBytes ("pw" ++ toString k), notes := none, favicon := none,
    tags := [] }

/-- `sSetup` after `addPassword` of `credInput 0`. -/
def sWithCred : PMState :=
  (sSetup.addPassword (credInput 0) "cred1" (List.replicate 16 3)
    (List.replicate 16 4) 2000).2

/-- One `updatePassword('cred1', credInput k)` step at time `2000 + k`. -/
def updStep (s : PMState) (k : Nat) : PMState :=
  (s.updatePassword "cred1" (credInput k) (List.replicate 16 (5 + k))
    (List.replicate 16 40) (2000 + k)).2

/-- `sWithCred` after ten password updates of the same credential. -/
def sTenUpdates : PMState :=
  (List.range 10).foldl (fun s k => updStep s (k + 1)) sWithCred

/-! ### C8 — strength scoring and the setup gate -/
/-- The point heuristic as the specification words it: +1 at each length
tier 8/12/16, +1 per present character class, -1 each for a 3+ repeat
run, an all-digit password and an all-alphabetic password. -/
def specStrengthScore (p : List Char) : Int :=
  (if 8 ≤ p.length then 1 else 0) +
  (if 12 ≤ p.length then 1 else 0) +
  (if 16 ≤ p.length then 1 else 0) +
  (if p.any isLowerCh then 1 else 0) +
  (if p.any isUpperCh then 1 else 0) +
  (if p.any isDigitCh then 1 else 0) +
  (if p.any (fun c => !(isLowerCh c || isUpperCh c || isDigitCh c)) then 1 else 0) -
  (if hasRepeatRun p then 1 else 0) -
  (if decide (p.length ≠ 0) && p.all isDigitCh then 1 else 0) -
  (if decide (p.length ≠ 0) && p.all (fun c => isLowerCh c || isUpperCh c) then 1 else 0)

/-- The label bucketing the code actually implements, from the raw
(pre-clamp) score: it has a fifth bucket below Weak. -/
def specStrengthLabel (score : Int) : String :=
  if 7 ≤ score then "Very Strong"
  else if 5 ≤ score then "Strong"
  else if 3 ≤ score then "Fair"
  else if 2 ≤ score then "Weak"
  else "Very Weak"

/-- A second credential row with the same decrypted password as
`credInput 0` but a different nonce, hence a different ciphertext. -/
def otherIvRow : CredRow :=
  { id := "cred2", domain := "other.com", username := "c@d.com",
    encrypted_password := encryptedBlob keySetup (List.replicate 16 9) (strBytes "pw0"),
    encrypted_notes := none, favicon := none, tags := [], created_at := 2001,
    modified_at := 2001, last_used := none, use_count := 0 }

/-- The first credential row as stored by the concrete add above. -/
def firstCredRow : CredRow :=
  { id := "cred1", domain := "example.com", username := "a@b.com",
    encrypted_password := encryptedBlob keySetup (List.replicate 16 3) (strBytes "pw0"),
    encrypted_notes := none, favicon := none, tags := [], created_at := 2000,
    modified_at := 2000, last_used := none, use_count := 0 }

/-- A store holding the two rows with identical password plaintext and
distinct ciphertexts. -/
def dbSamePlain : PasswordDatabase :=
  { PasswordDatabase.empty with passwords := [firstCredRow, otherIvRow] }

/-- An imported copy of `firstCredRow` under another id with the very
same stored ciphertext. -/
def sameCipherRow : CredRow :=
  { firstCredRow with
      id := "cred3"
      domain := "copy.com" }

/-- A store holding two rows with byte-identical ciphertexts. -/
def dbSameCipher : PasswordDatabase :=
  { PasswordDatabase.empty with passwords := [firstCredRow, sameCipherRow] }

/-- A well-formed encrypted note under the setup key. -/
def noteGoodRow : NoteRow :=
  { id := "n1", title := "shopping",
    encrypted_content := encryptedBlob keySetup (List.replicate 16 2) (strBytes "memo"),
    created_at := 1, modified_at := 5 }

/-- A corrupted note blob: 48 arbitrary bytes whose tag cannot verify. -/
def noteBadRow : NoteRow :=
  { id := "n2", title := "broken",
    encrypted_content := List.replicate 48 7, created_at := 1, modified_at := 3 }

/-- An unlocked state holding one good and one corrupted note. -/
def sNotesMixed : PMState :=
  { encryption := ⟨some keySetup, some (List.range 32)⟩,
    database := { PasswordDatabase.empty with notes := [noteGoodRow, noteBadRow] },
    isLocked := false, timerArmed := true }

/-- A corrupted credential row: its stored ciphertext cannot decrypt. -/
def badCredRow : CredRow :=
  { id := "bad1", domain := "corrupt.com", username := "x@y.com",
    encrypted_password := List.replicate 48 5, encrypted_notes := none,
    favicon := none, tags := [], created_at := 10, modified_at := 10,
    last_used := none, use_count := 0 }

/-- An unlocked state holding one decryptable and one corrupted
credential. -/
def sCredsMixed : PMState :=
  { encryption := ⟨some keySetup, some (List.range 32)⟩,
    database := { PasswordDatabase.empty with passwords := [firstCredRow, badCredRow] },
    isLocked := false, timerArmed := true }

/-! ### C10 — getPassword bumps usage statistics -/
/-- Placeholder row used as the default of positional lookups. -/
def blankRow : CredRow :=
  { id := "", domain := "", username := "", encrypted_password := [],
    encrypted_notes := none, favicon := none, tags := [], created_at := 0,
    modified_at := 0, last_used := none, use_count := 0 }

/-- The usage bump a row receives from `updatePasswordUsage`. -/
def bumpUsage (r : CredRow) (now : Nat) : CredRow :=
  { r with last_used := some now, use_count := r.use_count + 1 }

/-- The well-formedness the AUTOINCREMENT rowid provides: distinct ids,
all below the next id. -/
def GoodHistory (db : PasswordDatabase) : Prop :=
  (db.history.map (fun r => r.id)).Nodup ∧
  (∀ r ∈ db.history, r.id < db.nextHistoryId)

/-- Shorthand for the row inserted by `addToPasswordHistory`. -/
def newHistRow (db : PasswordDatabase) (pid : String) (encPw : List Nat)
    (now : Nat) : HistoryRow :=
  { id := db.nextHistoryId, password_id := pid,
    encrypted_old_password := encPw, changed_at := now }

/-- The candidate rows for one credential right after the INSERT. -/
def histCandidates (db : PasswordDatabase) (pid : String) (encPw : List Nat)
    (now : Nat) : List HistoryRow :=
  db.historyFor pid ++ [newHistRow db pid encPw now]

/-! ### Frame lemmas and the session invariant -/
/-- Frame of the operations that touch neither the session fields nor the
history table. -/
def FrameOk (s s' : PMState) : Prop :=
  s'.encryption = s.encryption ∧ s'.isLocked = s.isLocked ∧
  s'.database.history = s.database.history ∧
  s'.database.nextHistoryId = s.database.nextHistoryId

/-- The invariant carried through every reachable state: the key is
resident whenever the session is unlocked, the history rowids are
well-formed, and no credential ever holds more than five history rows. -/
def SessionInv (s : PMState) : Prop :=
  (s.isLocked = false → s.encryption.masterKey ≠ none) ∧
  GoodHistory s.database ∧
  (∀ pid, (s.database.historyFor pid).length ≤ 5)

/-! ### C2 — encrypt/decrypt round trip and blob layout -/
theorem length_keystream (key iv : List Nat) (n : Nat) :
    (keystream key iv n).length = n := by
  simp [keystream]

theorem length_authTag (key iv ct : List Nat) :
    (authTag key iv ct).length = tagLength := by
  simp [authTag]

theorem length_cipherBody (key iv pt : List Nat) :
    (cipherBody key iv pt).length = pt.length := by
  simp [cipherBody, xorBytes, length_keystream]

theorem xorBytes_cancel (pt : List Nat) :
    ∀ ks : List Nat, ks.length = pt.length →
      xorBytes (xorBytes pt ks) ks = pt := by
  induction pt with
  | nil => intro ks _; simp [xorBytes]
  | cons a pt ih =>
    intro ks hks
    cases ks with
    | nil => simp at hks
    | cons b ks =>
      simp only [xorBytes, List.zipWith] at *
      rw [show Nat.xor (Nat.xor a b) b = a from Nat.xor_cancel_right b a,
        ih ks (by simpa using hks)]

theorem take_append_eq {α : Type} (l₁ l₂ : List α) :
    (l₁ ++ l₂).take l₁.length = l₁ := by
  simp

theorem drop_append_eq {α : Type} (l₁ l₂ : List α) :
    (l₁ ++ l₂).drop l₁.length = l₂ := by
  simp

/-- C2: For every key K, 16-byte nonce and plaintext P, `encrypt`
produces the blob `nonce ‖ authTag ‖ ciphertext` with a 16-byte nonce and
a 16-byte tag at the fixed offsets, and `decrypt` of that blob with the
same key returns exactly P. -/
theorem encrypt_decrypt_roundtrip (e : PasswordEncryption) (key iv pt : List Nat)
    (hkey : e.masterKey = some key) (hiv : iv.length = ivLength) :
    e.encrypt iv pt = .ok (encryptedBlob key iv pt) ∧
    (encryptedBlob key iv pt).take ivLength = iv ∧
    ((encryptedBlob key iv pt).drop ivLength).take tagLength =
      authTag key iv (cipherBody key iv pt) ∧
    (authTag key iv (cipherBody key iv pt)).length = tagLength ∧
    (encryptedBlob key iv pt).drop (ivLength + tagLength) = cipherBody key iv pt ∧
    e.decrypt (encryptedBlob key iv pt) = .ok pt := by
  have htag : (authTag key iv (cipherBody key iv pt)).length = tagLength :=
    length_authTag ..
  have htake : (encryptedBlob key iv pt).take ivLength = iv := by
    rw [encryptedBlob, List.append_assoc, ← hiv, take_append_eq]
  have hdrop : (encryptedBlob key iv pt).drop ivLength =
      authTag key iv (cipherBody key iv pt) ++ cipherBody key iv pt := by
    rw [encryptedBlob, List.append_assoc, ← hiv, drop_append_eq]
  have htag2 : ((encryptedBlob key iv pt).drop ivLength).take tagLength =
      authTag key iv (cipherBody key iv pt) := by
    rw [hdrop, ← htag, take_append_eq]
  have hct : (encryptedBlob key iv pt).drop (ivLength + tagLength) =
      cipherBody key iv pt := by
    rw [← List.drop_drop, hdrop, ← htag, drop_append_eq]
  refine ⟨by simp [PasswordEncryption.encrypt, hkey], htake, htag2, htag, hct, ?_⟩
  simp only [PasswordEncryption.decrypt, hkey, htake, htag2, hct, if_true,
    eq_self_iff_true]
  rw [length_cipherBody, cipherBody,
    xorBytes_cancel pt (keystream key iv pt.length) (length_keystream ..)]

/-- Witness instantiating the round-trip theorem at a concrete key, nonce
and plaintext. -/
theorem encrypt_decrypt_roundtrip_witness :
    (PasswordEncryption.mk (some (List.range 32)) none).decrypt
      (encryptedBlob (List.range 32) (List.range 16) (strBytes "hunter2")) =
      .ok (strBytes "hunter2") :=
  (encrypt_decrypt_roundtrip ⟨some (List.range 32), none⟩ (List.range 32)
    (List.range 16) (strBytes "hunter2") rfl (by decide)).2.2.2.2.2

theorem mem_insertOrd {α : Type} (le : α → α → Bool) (a x : α) :
    ∀ l : List α, x ∈ insertOrd le a l ↔ x = a ∨ x ∈ l := by
  intro l
  induction l with
  | nil => simp [insertOrd]
  | cons b bs ih =>
    by_cases h : le a b = true
    · simp [insertOrd, h]
    · simp only [insertOrd, if_neg h, List.mem_cons, ih]
      tauto

theorem mem_sortOrd {α : Type} (le : α → α → Bool) (x : α) :
    ∀ l : List α, x ∈ sortOrd le l ↔ x ∈ l := by
  intro l
  induction l with
  | nil => simp [sortOrd]
  | cons a as ih => simp [sortOrd, mem_insertOrd, ih]

theorem perm_insertOrd {α : Type} (le : α → α → Bool) (a : α) :
    ∀ l : List α, (insertOrd le a l).Perm (a :: l) := by
  intro l
  induction l with
  | nil => simp [insertOrd]
  | cons b bs ih =>
    by_cases h : le a b = true
    · simp [insertOrd, h]
    · rw [insertOrd, if_neg h]
      exact (List.Perm.cons b ih).trans (List.Perm.swap a b bs)

theorem perm_sortOrd {α : Type} (le : α → α → Bool) :
    ∀ l : List α, (sortOrd le l).Perm l := by
  intro l
  induction l with
  | nil => simp [sortOrd]
  | cons a as ih => exact (perm_insertOrd le a (sortOrd le as)).trans (ih.cons a)

theorem length_sortOrd {α : Type} (le : α → α → Bool) (l : List α) :
    (sortOrd le l).length = l.length :=
  (perm_sortOrd le l).length_eq

theorem pairwise_insertOrd {α : Type} (le : α → α → Bool)
    (htot : ∀ a b, le a b = true ∨ le b a = true)
    (htrans : ∀ a b c, le a b = true → le b c = true → le a c = true) (a : α) :
    ∀ l : List α, l.Pairwise (fun x y => le x y = true) →
      (insertOrd le a l).Pairwise (fun x y => le x y = true) := by
  intro l
  induction l with
  | nil => simp [insertOrd]
  | cons b bs ih =>
    intro hp
    rcases List.pairwise_cons.mp hp with ⟨hb, hbs⟩
    by_cases h : le a b = true
    · rw [insertOrd, if_pos h]
      refine List.pairwise_cons.mpr ⟨?_, hp⟩
      intro x hx
      rcases List.mem_cons.mp hx with rfl | hx
      · exact h
      · exact htrans a b x h (hb x hx)
    · rw [insertOrd, if_neg h]
      refine List.pairwise_cons.mpr ⟨?_, ih hbs⟩
      intro x hx
      rcases (mem_insertOrd le a x bs).mp hx with rfl | hx
      · exact (htot x b).resolve_left h
      · exact hb x hx

theorem pairwise_sortOrd {α : Type} (le : α → α → Bool)
    (htot : ∀ a b, le a b = true ∨ le b a = true)
    (htrans : ∀ a b c, le a b = true → le b c = true → le a c = true) :
    ∀ l : List α, (sortOrd le l).Pairwise (fun x y => le x y = true) := by
  intro l
  induction l with
  | nil => simp [sortOrd]
  | cons a as ih => exact pairwise_insertOrd le htot htrans a (sortOrd le as) ih

/-! ### C3 — every store operation is gated on the session lock -/
/-- C3: While the session is Locked, every store-reading or store-mutating
vault operation returns the VaultLocked error and leaves the entire state
— in particular the persistent store — unchanged. -/
theorem locked_ops_reject_and_preserve_store (s : PMState) (h : s.isLocked = true) :
    (∀ d fresh ivp ivn now, (s.addPassword d fresh ivp ivn now).1 = .error .vaultLocked ∧
      (s.addPassword d fresh ivp ivn now).2 = s) ∧
    (∀ domain, (s.getPasswords domain).1 = .error .vaultLocked ∧
      (s.getPasswords domain).2 = s) ∧
    (∀ id now, (s.getPassword id now).1 = .error .vaultLocked ∧
      (s.getPassword id now).2 = s) ∧
    (∀ id d ivp ivn now, (s.updatePassword id d ivp ivn now).1 = .error .vaultLocked ∧
      (s.updatePassword id d ivp ivn now).2 = s) ∧
    (∀ id now, (s.deletePassword id now).1 = .error .vaultLocked ∧
      (s.deletePassword id now).2 = s) ∧
    (∀ q, (s.searchPasswords q).1 = .error .vaultLocked ∧
      (s.searchPasswords q).2 = s) ∧
    (∀ d fresh iv now, (s.addSecureNote d fresh iv now).1 = .error .vaultLocked ∧
      (s.addSecureNote d fresh iv now).2 = s) ∧
    (s.getSecureNotes.1 = .error .vaultLocked ∧ s.getSecureNotes.2 = s) ∧
    (∀ id, (s.deleteSecureNote id).1 = .error .vaultLocked ∧
      (s.deleteSecureNote id).2 = s) ∧
    (∀ now, (s.getStatistics now).1 = .error .vaultLocked ∧
      (s.getStatistics now).2 = s) ∧
    (∀ now, (s.exportData now).1 = .error .vaultLocked ∧
      (s.exportData now).2 = s) ∧
    (∀ ps ns now, (s.importData ps ns now).1 = .error .vaultLocked ∧
      (s.importData ps ns now).2 = s) := by
  refine ⟨?_, ?_, ?_, ?_, ?_, ?_, ?_, ?_, ?_, ?_, ?_, ?_⟩ <;> intros <;>
    simp [PMState.addPassword, PMState.getPasswords, PMState.getPassword,
      PMState.updatePassword, PMState.deletePassword, PMState.searchPasswords,
      PMState.addSecureNote, PMState.getSecureNotes, PMState.deleteSecureNote,
      PMState.getStatistics, PMState.exportData, PMState.importData, h]

/-- Witness: the locked-gate theorem applied to the concrete locked state
`sLocked` for an add and a batch read. -/
theorem locked_ops_reject_and_preserve_store_witness :
    (sLocked.addPassword (credInput 0) "cred1" [] [] 0).1 = .error .vaultLocked ∧
    (sLocked.addPassword (credInput 0) "cred1" [] [] 0).2 = sLocked ∧
    (sLocked.getPasswords none).1 = .error .vaultLocked := by
  have h := locked_ops_reject_and_preserve_store sLocked rfl
  exact ⟨(h.1 (credInput 0) "cred1" [] [] 0).1, (h.1 (credInput 0) "cred1" [] [] 0).2,
    (h.2.1 none).1⟩

/-! ### C4 — unlock succeeds exactly on the verifier marker -/
/-- C4: With settings present, `unlock(password)` succeeds exactly when
decrypting the stored verification ciphertext with the key derived from
the candidate password yields the fixed marker; every failure — wrong
password (tag verifies but marker differs is also covered) or corrupted
settings (decryption throws) — leaves the lock state unchanged and
reports the single generic AuthenticationFailure result. -/
theorem unlock_iff_verifier_marker (s : PMState) (pw : String) (now : Nat)
    (st : Settings) (hst : s.database.settings = some st) :
    ((s.unlock pw now).1 = .ok () ↔
      (PasswordEncryption.mk (some (deriveKey (strBytes pw) st.salt))
        (some st.salt)).decrypt st.verification_hash = .ok verificationMarker) ∧
    ((s.unlock pw now).1 ≠ .ok () →
      (s.unlock pw now).1 = .error .authFailure ∧
      (s.unlock pw now).2.isLocked = s.isLocked) := by
  have hs : s.database.getMasterPasswordSettings = some st := hst
  rcases hd : (PasswordEncryption.mk (some (deriveKey (strBytes pw) st.salt))
      (some st.salt)).decrypt st.verification_hash with er | d
  · constructor
    · simp [PMState.unlock, hs, PasswordEncryption.verifyMasterPassword, hd]
    · intro _
      constructor <;>
        simp [PMState.unlock, hs, PasswordEncryption.verifyMasterPassword, hd]
  · by_cases hm : d = verificationMarker
    · subst hm
      constructor
      · simp [PMState.unlock, hs, PasswordEncryption.verifyMasterPassword, hd]
      · intro hne
        exact absurd (by simp [PMState.unlock, hs,
          PasswordEncryption.verifyMasterPassword, hd]) hne
    · constructor
      · simp [PMState.unlock, hs, PasswordEncryption.verifyMasterPassword, hd, hm]
      · intro _
        constructor <;>
          simp [PMState.unlock, hs, PasswordEncryption.verifyMasterPassword, hd, hm]

set_option maxRecDepth 40000 in
/-- Witness: at the concrete locked state, the correct master password
satisfies the marker condition and unlocking succeeds; the wrong password
falsifies it and unlocking reports AuthenticationFailure with the session
still locked. -/
theorem unlock_iff_verifier_marker_witness :
    (sLocked.unlock "Str0ngP@ss1" 1002).1 = .ok () ∧
    (sLocked.unlock "wrong" 1001).1 = .error .authFailure ∧
    (sLocked.unlock "wrong" 1001).2.isLocked = sLocked.isLocked :=
  ⟨(unlock_iff_verifier_marker sLocked "Str0ngP@ss1" 1002 stSetup (by decide)).1.mpr
      (by decide),
   ((unlock_iff_verifier_marker sLocked "wrong" 1001 stSetup (by decide)).2
      (by decide)).1,
   ((unlock_iff_verifier_marker sLocked "wrong" 1001 stSetup (by decide)).2
      (by decide)).2⟩

/-- Counterexample to C8 as stated: the password `"a"` scores 0 (below 3),
yet its label is `'Very Weak'`, not the claimed `Weak`; the code has a
fifth bucket for raw scores below 2. -/
theorem strength_label_below_two_not_weak :
    (checkPasswordStrength "a".data).score < 3 ∧
    (checkPasswordStrength "a".data).strength = "Very Weak" ∧
    (checkPasswordStrength "a".data).strength ≠ "Weak" := by
  refine ⟨by decide, by decide, by decide⟩

/-- C8 (amended): the returned score is exactly the point heuristic
clamped to [0,10]; the label is bucketed from the raw score as
Very Weak(<2)/Weak(=2)/Fair(3-4)/Strong(5-6)/Very Strong(≥7); and
`setupMasterPassword` rejects any password scoring below 3 with the
WeakPassword result, persisting nothing. -/
theorem strength_scoring_amended :
    (∀ p : List Char,
      (checkPasswordStrength p).score = (max 0 (min (specStrengthScore p) 10)).toNat ∧
      (checkPasswordStrength p).strength = specStrengthLabel (specStrengthScore p)) ∧
    (∀ (s : PMState) (pw : String) (salt iv : List Nat) (now : Nat),
      (checkPasswordStrength pw.data).score < 3 →
      (s.setupMasterPassword pw salt iv now).1 = .error .weakPassword ∧
      (s.setupMasterPassword pw salt iv now).2 = s) := by
  constructor
  · intro p
    exact ⟨rfl, rfl⟩
  · intro s pw salt iv now h
    constructor <;> simp [PMState.setupMasterPassword, h]

/-- Witness: the scoring identity evaluated at a concrete password, and
the setup gate rejecting the concrete weak password `"abc"` on the
concrete initial state. -/
theorem strength_scoring_amended_witness :
    (checkPasswordStrength "abc".data).score =
      (max 0 (min (specStrengthScore "abc".data) 10)).toNat ∧
    (PMState.initial.setupMasterPassword "abc" [] [] 0).1 = .error .weakPassword ∧
    (PMState.initial.setupMasterPassword "abc" [] [] 0).2 = PMState.initial :=
  ⟨(strength_scoring_amended.1 "abc".data).1,
   (strength_scoring_amended.2 PMState.initial "abc" [] [] 0 (by decide)).1,
   (strength_scoring_amended.2 PMState.initial "abc" [] [] 0 (by decide)).2⟩

/-! ### C9 — password generation -/
/-- Counterexample to C9 as stated: the caller-specified length is not
validated against [8, 64]; requesting length 4 succeeds and returns a
4-character password. -/
theorem generate_allows_out_of_range_length :
    generatePasswordEnc { length := 4 } (fun _ => 0) =
      .ok [lowerChars.getD 0 'a', lowerChars.getD 0 'a', lowerChars.getD 0 'a',
           lowerChars.getD 0 'a'] ∧
    ∀ p, generatePasswordEnc { length := 4 } (fun _ => 0) = .ok p →
      p.length = 4 ∧ ¬(8 ≤ p.length ∧ p.length ≤ 64) := by
  constructor
  · decide
  · intro p hp
    constructor
    · have : p = [lowerChars.getD 0 'a', lowerChars.getD 0 'a', lowerChars.getD 0 'a',
          lowerChars.getD 0 'a'] := by
        have h0 : generatePasswordEnc { length := 4 } (fun _ => 0) =
            .ok [lowerChars.getD 0 'a', lowerChars.getD 0 'a', lowerChars.getD 0 'a',
                 lowerChars.getD 0 'a'] := by decide
        rw [h0] at hp
        exact (Except.ok.injEq _ _ ▸ congrArg id hp).symm ▸ (Except.ok.inj hp).symm
      simp [this]
    · intro hcon
      have h4 : p.length = 4 := by
        have h0 : generatePasswordEnc { length := 4 } (fun _ => 0) =
            .ok [lowerChars.getD 0 'a', lowerChars.getD 0 'a', lowerChars.getD 0 'a',
                 lowerChars.getD 0 'a'] := by decide
        rw [h0] at hp
        rw [← Except.ok.inj hp]
        decide
      omega

/-- C9 (amended): for every option record (no range check on the length;
the default is 16), whenever the built character set is nonempty (or the
length is zero) generation succeeds, the result has exactly the requested
length, and every character belongs to the built character set — the
union of the enabled classes minus the requested exclusions. -/
theorem generate_charset_and_length (o : GenOptions) (rng : Nat → Nat)
    (h : buildCharset o ≠ [] ∨ o.length = 0) :
    (∃ p, generatePasswordEnc o rng = .ok p ∧ p.length = o.length ∧
      ∀ c ∈ p, c ∈ buildCharset o) ∧
    (∀ c, c ∈ buildCharset o ↔
      (((o.lowercase = true ∧ c ∈ lowerChars) ∨ (o.uppercase = true ∧ c ∈ upperChars) ∨
        (o.numbers = true ∧ c ∈ digitChars) ∨ (o.symbols = true ∧ c ∈ symbolChars)) ∧
       (o.excludeSimilar = true → ¬(c ∈ similarChars)) ∧
       (o.excludeAmbiguous = true → ¬(c ∈ ambiguousChars)))) := by
  constructor
  · rcases Decidable.em (buildCharset o = []) with hcs | hcs
    · rcases h with h | h
      · exact absurd hcs h
      · refine ⟨[], ?_, by simp [h], by simp⟩
        simp [generatePasswordEnc, hcs, h]
    · have hlen : 0 < (buildCharset o).length := List.length_pos.mpr hcs
      refine ⟨(List.range o.length).map
          (fun i => (buildCharset o).getD (rng i % (buildCharset o).length) 'a'), ?_, ?_, ?_⟩
      · simp only [generatePasswordEnc]
        rw [if_neg (Nat.pos_iff_ne_zero.mp hlen)]
      · simp
      · intro c hc
        rcases List.mem_map.mp hc with ⟨i, _, rfl⟩
        have hi : rng i % (buildCharset o).length < (buildCharset o).length :=
          Nat.mod_lt _ hlen
        rw [List.getD_eq_getElem _ _ hi]
        exact List.getElem_mem ..
  · intro c
    have hmem : ∀ (b : Bool) (l : List Char),
        (c ∈ if b = true then l else []) ↔ (b = true ∧ c ∈ l) := by
      intro b l; cases b <;> simp
    have hfil : ∀ ex l : List Char,
        (c ∈ l.filter (fun x => !(ex.contains x))) ↔ (c ∈ l ∧ ¬(c ∈ ex)) := by
      intro ex l
      rw [List.mem_filter]
      simp [List.elem_iff]
    rcases hS : o.excludeSimilar <;> rcases hA : o.excludeAmbiguous <;>
      simp only [buildCharset, hS, hA, Bool.false_eq_true, if_false, if_true,
        hfil, hmem, List.mem_append] <;>
      itauto

/-- Witness: the amended generation theorem at the spec's example options
(length 20, symbols off). -/
theorem generate_charset_and_length_witness :
    ∃ p, generatePasswordEnc { length := 20, symbols := false } (fun i => i * 37) = .ok p ∧
      p.length = 20 ∧ ∀ c ∈ p, c ∈ buildCharset { length := 20, symbols := false } :=
  (generate_charset_and_length { length := 20, symbols := false } (fun i => i * 37)
    (Or.inl (by decide))).1

/-! ### C6 — duplicate detection -/
theorem mem_firstOccurrencesGo {α : Type} [DecidableEq α] (x : α) :
    ∀ (l seen : List α),
      (x ∈ firstOccurrencesGo seen l ↔ x ∈ l ∧ ¬(x ∈ seen)) := by
  intro l
  induction l with
  | nil => intro seen; simp [firstOccurrencesGo]
  | cons a as ih =>
    intro seen
    by_cases ha : a ∈ seen
    · rw [firstOccurrencesGo, if_pos ha, ih seen]
      constructor
      · rintro ⟨hx, hs⟩
        exact ⟨List.mem_cons_of_mem a hx, hs⟩
      · rintro ⟨hx, hs⟩
        rcases List.mem_cons.mp hx with rfl | hx
        · exact absurd ha hs
        · exact ⟨hx, hs⟩
    · rw [firstOccurrencesGo, if_neg ha]
      by_cases hx : x = a
      · subst hx
        simp [ha]
      · simp only [List.mem_cons, ih (a :: seen)]
        tauto

theorem mem_firstOccurrences {α : Type} [DecidableEq α] (x : α) (l : List α) :
    x ∈ firstOccurrences l ↔ x ∈ l := by
  rw [firstOccurrences, mem_firstOccurrencesGo]
  simp

theorem one_lt_length_of_two_mem {α : Type} {l : List α} {a b : α}
    (ha : a ∈ l) (hb : b ∈ l) (hne : a ≠ b) : 1 < l.length := by
  cases l with
  | nil => simp at ha
  | cons x t =>
    cases t with
    | nil =>
      simp only [List.mem_singleton] at ha hb
      exact absurd (ha.trans hb.symm) hne
    | cons y u => simp [Nat.lt_succ_iff]

set_option maxRecDepth 100000 in
/-- Counterexample to C6 as stated: two stored rows whose encrypted
passwords decrypt to the same plaintext `'pw0'` under the vault key but
were encrypted under different nonces are NOT grouped —
`findDuplicatePasswords` returns no group at all, because it compares the
stored ciphertexts. -/
theorem duplicates_miss_equal_plaintexts :
    (PasswordEncryption.mk (some keySetup) none).decrypt
      firstCredRow.encrypted_password = .ok (strBytes "pw0") ∧
    (PasswordEncryption.mk (some keySetup) none).decrypt
      otherIvRow.encrypted_password = .ok (strBytes "pw0") ∧
    firstCredRow ∈ dbSamePlain.getPasswords none ∧
    otherIvRow ∈ dbSamePlain.getPasswords none ∧
    firstCredRow ≠ otherIvRow ∧
    dbSamePlain.findDuplicatePasswords = [] := by
  refine ⟨by decide, by decide, by decide, by decide, by decide, by decide⟩

/-- C6 (amended): two distinct stored entries are placed in a common
duplicate group exactly when their stored `encrypted_password`
ciphertexts are byte-identical — plaintext equality plays no role. -/
theorem duplicates_group_by_ciphertext (db : PasswordDatabase) (r1 r2 : CredRow)
    (h1 : r1 ∈ db.getPasswords none) (h2 : r2 ∈ db.getPasswords none)
    (hne : r1 ≠ r2) :
    (∃ g ∈ db.findDuplicatePasswords, r1 ∈ g ∧ r2 ∈ g) ↔
      r1.encrypted_password = r2.encrypted_password := by
  constructor
  · rintro ⟨g, hg, hr1, hr2⟩
    rcases List.mem_filter.mp hg with ⟨hmap, _⟩
    rcases List.mem_map.mp hmap with ⟨k, _, rfl⟩
    have e1 := of_decide_eq_true (List.mem_filter.mp hr1).2
    have e2 := of_decide_eq_true (List.mem_filter.mp hr2).2
    exact e1.trans e2.symm
  · intro heq
    have hk : r1.encrypted_password ∈
        (db.getPasswords none).map (fun r => r.encrypted_password) :=
      List.mem_map.mpr ⟨r1, h1, rfl⟩
    have hfo := (mem_firstOccurrences r1.encrypted_password
      ((db.getPasswords none).map (fun r => r.encrypted_password))).mpr hk
    have hg1 : r1 ∈ (db.getPasswords none).filter
        (fun r => r.encrypted_password = r1.encrypted_password) :=
      List.mem_filter.mpr ⟨h1, decide_eq_true rfl⟩
    have hg2 : r2 ∈ (db.getPasswords none).filter
        (fun r => r.encrypted_password = r1.encrypted_password) :=
      List.mem_filter.mpr ⟨h2, decide_eq_true heq.symm⟩
    refine ⟨_, List.mem_filter.mpr ⟨List.mem_map.mpr ⟨r1.encrypted_password, hfo, rfl⟩,
      decide_eq_true (one_lt_length_of_two_mem hg1 hg2 hne)⟩, hg1, hg2⟩

set_option maxRecDepth 100000 in
/-- Witness: the amended grouping theorem applied to the concrete store
with two byte-identical ciphertexts — they do land in one group. -/
theorem duplicates_group_by_ciphertext_witness :
    ∃ g ∈ dbSameCipher.findDuplicatePasswords,
      firstCredRow ∈ g ∧ sameCipherRow ∈ g :=
  (duplicates_group_by_ciphertext dbSameCipher firstCredRow sameCipherRow
    (by decide) (by decide) (by decide)).mpr (by decide)

/-! ### C7 — failure isolation in batch reads -/
theorem except_toOption_eq_some {ε α : Type} (x : Except ε α) (a : α) :
    x.toOption = some a ↔ x = .ok a := by
  cases x <;> simp [Except.toOption]

theorem decryptNotesList_ok (e : PasswordEncryption) :
    ∀ ns : List NoteRow,
      (∀ n ∈ ns, ∃ c, e.decrypt n.encrypted_content = .ok c) →
      ∃ l, decryptNotesList e ns = .ok l := by
  intro ns
  induction ns with
  | nil => intro _; exact ⟨[], rfl⟩
  | cons n ns ih =>
    intro h
    rcases h n (List.mem_cons_self n ns) with ⟨c, hc⟩
    rcases ih (fun m hm => h m (List.mem_cons_of_mem n hm)) with ⟨l, hl⟩
    refine ⟨(⟨n.id, n.title, n.encrypted_content, n.created_at, n.modified_at, c⟩ :
      DecryptedNote) :: l, ?_⟩
    simp [decryptNotesList, hc, hl]

theorem decryptNotesList_error (e : PasswordEncryption) :
    ∀ (ns : List NoteRow) (n : NoteRow) (er : PMError), n ∈ ns →
      e.decrypt n.encrypted_content = .error er →
      ∃ er2, decryptNotesList e ns = .error er2 := by
  intro ns
  induction ns with
  | nil => intro n er h; simp at h
  | cons m ns ih =>
    intro n er hmem herr
    rcases hd : e.decrypt m.encrypted_content with er0 | c
    · exact ⟨er0, by simp [decryptNotesList, hd]⟩
    · rcases List.mem_cons.mp hmem with rfl | hmem
      · rw [hd] at herr
        exact absurd herr (by simp)
      · rcases ih n er hmem herr with ⟨er2, he⟩
        exact ⟨er2, by simp [decryptNotesList, hd, he]⟩

/-- C7 (amended): for credential listing and searching, a decryption
failure on one entry never aborts the batch — the operation still
succeeds, decryptable entries are all returned, and nothing else is
returned; for `getSecureNotes`, however, the entries are decrypted with
no per-entry guard, so one corrupted note makes the whole batch fail. -/
theorem batch_isolation_amended :
    (∀ (s : PMState) (domain : Option String), s.isLocked = false →
      ∃ l, (s.getPasswords domain).1 = .ok l ∧
        (∀ r ∈ s.database.getPasswords domain, ∀ d,
          s.encryption.decryptPasswordEntry r = .ok d → d ∈ l) ∧
        (∀ d ∈ l, ∃ r ∈ s.database.getPasswords domain,
          s.encryption.decryptPasswordEntry r = .ok d)) ∧
    (∀ (s : PMState) (q : String), s.isLocked = false →
      ∃ l, (s.searchPasswords q).1 = .ok l ∧
        (∀ r ∈ s.database.searchPasswords q, ∀ d,
          s.encryption.decryptPasswordEntry r = .ok d → d ∈ l) ∧
        (∀ d ∈ l, ∃ r ∈ s.database.searchPasswords q,
          s.encryption.decryptPasswordEntry r = .ok d)) ∧
    (∀ s : PMState, s.isLocked = false →
      ((∀ n ∈ s.database.getSecureNotes, ∃ c,
          s.encryption.decrypt n.encrypted_content = .ok c) →
        ∃ l, s.getSecureNotes.1 = .ok l) ∧
      (∀ n ∈ s.database.getSecureNotes, ∀ er,
        s.encryption.decrypt n.encrypted_content = .error er →
        ∃ er2, s.getSecureNotes.1 = .error er2)) := by
  refine ⟨?_, ?_, ?_⟩
  · intro s domain h
    refine ⟨(s.database.getPasswords domain).filterMap
        (fun r => (s.encryption.decryptPasswordEntry r).toOption), ?_, ?_, ?_⟩
    · simp [PMState.getPasswords, h, PMState.resetAutoLockTimer]
    · intro r hr d hd
      exact List.mem_filterMap.mpr ⟨r, hr, by rw [hd]; rfl⟩
    · intro d hd
      rcases List.mem_filterMap.mp hd with ⟨r, hr, he⟩
      exact ⟨r, hr, (except_toOption_eq_some _ _).mp he⟩
  · intro s q h
    refine ⟨(s.database.searchPasswords q).filterMap
        (fun r => (s.encryption.decryptPasswordEntry r).toOption), ?_, ?_, ?_⟩
    · simp [PMState.searchPasswords, h, PMState.resetAutoLockTimer]
    · intro r hr d hd
      exact List.mem_filterMap.mpr ⟨r, hr, by rw [hd]; rfl⟩
    · intro d hd
      rcases List.mem_filterMap.mp hd with ⟨r, hr, he⟩
      exact ⟨r, hr, (except_toOption_eq_some _ _).mp he⟩
  · intro s h
    have hnotes : s.getSecureNotes.1 =
        decryptNotesList s.encryption s.database.getSecureNotes := by
      simp [PMState.getSecureNotes, h, PMState.resetAutoLockTimer]
    constructor
    · intro hall
      rcases decryptNotesList_ok s.encryption s.database.getSecureNotes hall with ⟨l, hl⟩
      exact ⟨l, hnotes.trans hl⟩
    · intro n hn er herr
      rcases decryptNotesList_error s.encryption s.database.getSecureNotes n er hn herr
        with ⟨er2, he⟩
      exact ⟨er2, hnotes.trans he⟩

set_option maxRecDepth 100000 in
/-- Counterexample to C7 as stated: with one decryptable note and one
corrupted note in the store, `getSecureNotes` returns the DecryptionFailure
error for the whole batch — the intact entry is not returned. -/
theorem notes_batch_aborts_on_corrupt_entry :
    sNotesMixed.isLocked = false ∧
    sNotesMixed.encryption.decrypt noteGoodRow.encrypted_content =
      .ok (strBytes "memo") ∧
    noteGoodRow ∈ sNotesMixed.database.getSecureNotes ∧
    noteBadRow ∈ sNotesMixed.database.getSecureNotes ∧
    sNotesMixed.getSecureNotes.1 = .error .decryptFailed := by
  refine ⟨by decide, by decide, by decide, by decide, by decide⟩

/-- Witness: the amended isolation theorem applied to the concrete mixed
credential store. -/
theorem batch_isolation_amended_witness :
    ∃ l, (sCredsMixed.getPasswords none).1 = .ok l ∧
      (∀ r ∈ sCredsMixed.database.getPasswords none, ∀ d,
        sCredsMixed.encryption.decryptPasswordEntry r = .ok d → d ∈ l) ∧
      (∀ d ∈ l, ∃ r ∈ sCredsMixed.database.getPasswords none,
        sCredsMixed.encryption.decryptPasswordEntry r = .ok d) :=
  batch_isolation_amended.1 sCredsMixed none rfl

/-- C10: While Unlocked, a successful `getPassword(id)` returns the
decrypted entry AND mutates the store: rows matching the id get
`use_count + 1` and `last_used = now` while all their other columns, all
other rows, the settings, the history and the notes are untouched — the
read is not side-effect free. -/
theorem get_credential_bumps_usage (s : PMState) (id : String) (now : Nat)
    (row : CredRow) (dec : DecryptedEntry)
    (hunlocked : s.isLocked = false)
    (hrow : s.database.getPassword id = some row)
    (hdec : s.encryption.decryptPasswordEntry row = .ok dec) :
    (s.getPassword id now).1 = .ok dec ∧
    (s.getPassword id now).2.database.settings = s.database.settings ∧
    (s.getPassword id now).2.database.history = s.database.history ∧
    (s.getPassword id now).2.database.notes = s.database.notes ∧
    (s.getPassword id now).2.database.nextHistoryId = s.database.nextHistoryId ∧
    (s.getPassword id now).2.database.passwords.length =
      s.database.passwords.length ∧
    (∀ i : Nat, i < s.database.passwords.length →
      ((s.database.passwords.getD i blankRow).id = id →
        (s.getPassword id now).2.database.passwords.getD i blankRow =
          bumpUsage (s.database.passwords.getD i blankRow) now) ∧
      ((s.database.passwords.getD i blankRow).id ≠ id →
        (s.getPassword id now).2.database.passwords.getD i blankRow =
          s.database.passwords.getD i blankRow)) ∧
    (s.getPassword id now).2.database.passwords ≠ s.database.passwords := by
  have hres : s.getPassword id now = (.ok dec,
      { s with database := s.database.updatePasswordUsage id now,
               timerArmed := true }) := by
    simp [PMState.getPassword, PMState.resetAutoLockTimer, hunlocked, hrow, hdec]
  have hdb : (s.getPassword id now).2.database =
      s.database.updatePasswordUsage id now := by rw [hres]
  have hfun : ∀ r : CredRow,
      (if r.id = id then { r with last_used := some now, use_count := r.use_count + 1 }
       else r) =
      (if r.id = id then bumpUsage r now else r) := by
    intro r
    by_cases h : r.id = id <;> simp [bumpUsage, h]
  have hgetD : ∀ i : Nat, i < s.database.passwords.length →
      (s.getPassword id now).2.database.passwords.getD i blankRow =
        (if (s.database.passwords.getD i blankRow).id = id then
          bumpUsage (s.database.passwords.getD i blankRow) now
         else s.database.passwords.getD i blankRow) := by
    intro i hi
    rw [hdb]
    simp only [PasswordDatabase.updatePasswordUsage]
    rw [List.getD_eq_getElem _ _ (show i < (s.database.passwords.map (fun r =>
          if r.id = id then { r with last_used := some now, use_count := r.use_count + 1 }
          else r)).length by simpa using hi),
      List.getD_eq_getElem _ _ hi, List.getElem_map]
    exact hfun _
  refine ⟨by rw [hres], by rw [hdb]; rfl, by rw [hdb]; rfl, by rw [hdb]; rfl,
    by rw [hdb]; rfl, by rw [hdb]; simp [PasswordDatabase.updatePasswordUsage], ?_, ?_⟩
  · intro i hi
    constructor
    · intro hid
      rw [hgetD i hi, if_pos hid]
    · intro hid
      rw [hgetD i hi, if_neg hid]
  · intro hsame
    have hrow' : s.database.passwords.find? (fun r => r.id = id) = some row := hrow
    have hmem : row ∈ s.database.passwords := List.mem_of_find?_eq_some hrow'
    have hid : row.id = id := by simpa using List.find?_some hrow'
    rcases List.mem_iff_getElem.mp hmem with ⟨i, hi, hgot⟩
    have h1 := (hgetD i hi)
    rw [hsame, List.getD_eq_getElem _ _ hi, hgot, hid, if_pos rfl] at h1
    have hcount := congrArg CredRow.use_count h1
    simp [bumpUsage] at hcount

set_option maxRecDepth 100000 in
/-- Witness: the usage-bump theorem at the concrete one-credential state;
the decrypted entry comes back and the store row visibly changes. -/
theorem get_credential_bumps_usage_witness :
    (∃ d, (sWithCred.getPassword "cred1" 3000).1 = .ok d) ∧
    (sWithCred.getPassword "cred1" 3000).2.database.passwords ≠
      sWithCred.database.passwords := by
  have h := get_credential_bumps_usage sWithCred "cred1" 3000 firstCredRow
    { id := "cred1", domain := "example.com", username := "a@b.com",
      favicon := none, tags := [], created_at := 2000, modified_at := 2000,
      last_used := none, use_count := 0, password := strBytes "pw0", notes := none }
    (by decide) (by decide) (by decide)
  exact ⟨⟨_, h.1⟩, h.2.2.2.2.2.2.2⟩

/-! ### History invariants (C5, C1 machinery) -/
theorem histRecentGE_total (a b : HistoryRow) :
    histRecentGE a b = true ∨ histRecentGE b a = true := by
  simp only [histRecentGE, Bool.or_eq_true, Bool.and_eq_true, decide_eq_true_eq]
  omega

theorem histRecentGE_trans (a b c : HistoryRow) :
    histRecentGE a b = true → histRecentGE b c = true → histRecentGE a c = true := by
  simp only [histRecentGE, Bool.or_eq_true, Bool.and_eq_true, decide_eq_true_eq]
  omega

theorem length_le_of_nodup_subset {α : Type} [DecidableEq α] {l l' : List α}
    (hnd : l.Nodup) (hsub : ∀ x ∈ l, x ∈ l') : l.length ≤ l'.length :=
  calc l.length = l.toFinset.card := (List.toFinset_card_of_nodup hnd).symm
  _ ≤ l'.toFinset.card := Finset.card_le_card
      (fun x hx => List.mem_toFinset.mpr (hsub x (List.mem_toFinset.mp hx)))
  _ ≤ l'.length := List.toFinset_card_le l'

theorem length_le_of_nodup_map_subset {α β : Type} [DecidableEq β] {l : List α}
    {f : α → β} {keys : List β} (hnd : (l.map f).Nodup)
    (hsub : ∀ x ∈ l, f x ∈ keys) : l.length ≤ keys.length := by
  have h1 : (l.map f).length ≤ keys.length :=
    length_le_of_nodup_subset hnd (by
      intro x hx
      rcases List.mem_map.mp hx with ⟨a, ha, rfl⟩
      exact hsub a ha)
  simpa using h1

theorem addToPasswordHistory_history_eq (db : PasswordDatabase) (pid : String)
    (encPw : List Nat) (now : Nat) :
    (db.addToPasswordHistory pid encPw now).history =
      (db.history ++ [newHistRow db pid encPw now]).filter (fun r =>
        !(r.password_id = pid : Bool) ||
          (((sortOrd histRecentGE ((db.history ++ [newHistRow db pid encPw now]).filter
            (fun r => r.password_id = pid))).take 5).map (fun r => r.id)).contains r.id) ∧
    (db.addToPasswordHistory pid encPw now).nextHistoryId = db.nextHistoryId + 1 ∧
    (db.addToPasswordHistory pid encPw now).passwords = db.passwords ∧
    (db.addToPasswordHistory pid encPw now).notes = db.notes ∧
    (db.addToPasswordHistory pid encPw now).settings = db.settings := by
  refine ⟨rfl, rfl, rfl, rfl, rfl⟩

theorem filter_comm_of_imp {α : Type} {p q : α → Bool} (l : List α)
    (h : ∀ r, q r = true → p r = true) :
    (l.filter p).filter q = l.filter q := by
  rw [List.filter_filter]
  refine List.filter_congr ?_
  intro r _
  rcases hq : q r
  · simp
  · simp [h r hq]

theorem historyFor_filter (db : PasswordDatabase) (pid : String) :
    db.historyFor pid = db.history.filter (fun r => r.password_id = pid) := rfl

theorem candidates_filter_eq (db : PasswordDatabase) (pid : String)
    (encPw : List Nat) (now : Nat) :
    (db.history ++ [newHistRow db pid encPw now]).filter
      (fun r => r.password_id = pid) = histCandidates db pid encPw now := by
  rw [List.filter_append, histCandidates, historyFor_filter]
  congr 1
  simp [newHistRow]

theorem historyFor_addToPasswordHistory_other (db : PasswordDatabase)
    (pid pid' : String) (encPw : List Nat) (now : Nat) (hne : pid' ≠ pid) :
    (db.addToPasswordHistory pid encPw now).historyFor pid' =
      db.historyFor pid' := by
  rw [historyFor_filter, (addToPasswordHistory_history_eq db pid encPw now).1,
    filter_comm_of_imp]
  · rw [List.filter_append, historyFor_filter]
    have : ([newHistRow db pid encPw now].filter
        (fun r => r.password_id = pid')) = [] := by
      simp [newHistRow, List.filter, Ne.symm hne]
    rw [this, List.append_nil]
  · intro r hq
    have : r.password_id = pid' := of_decide_eq_true hq
    simp only [this, Bool.or_eq_true, Bool.not_eq_true', decide_eq_false_iff_not]
    exact Or.inl hne

theorem hist_append_ids_nodup (db : PasswordDatabase) (pid : String)
    (encPw : List Nat) (now : Nat) (hgood : GoodHistory db) :
    ((db.history ++ [newHistRow db pid encPw now]).map (fun r => r.id)).Nodup := by
  rw [List.map_append, List.nodup_append]
  refine ⟨hgood.1, by simp, ?_⟩
  intro x hx hmem
  rcases List.mem_map.mp hx with ⟨r, hr, rfl⟩
  have hlt := hgood.2 r hr
  simp only [List.map_cons, List.map_nil, List.mem_singleton, newHistRow] at hmem
  omega

theorem candidates_ids_nodup (db : PasswordDatabase) (pid : String)
    (encPw : List Nat) (now : Nat) (hgood : GoodHistory db) :
    ((histCandidates db pid encPw now).map (fun r => r.id)).Nodup := by
  rw [← candidates_filter_eq]
  exact ((List.filter_sublist _).map _).nodup
    (hist_append_ids_nodup db pid encPw now hgood)

/-- The kept rows for the touched credential are exactly the first five of
the candidate rows sorted by recency. -/
theorem historyFor_addToPasswordHistory_self (db : PasswordDatabase)
    (pid : String) (encPw : List Nat) (now : Nat) (hgood : GoodHistory db) :
    ∀ r, r ∈ (db.addToPasswordHistory pid encPw now).historyFor pid ↔
      r ∈ (sortOrd histRecentGE (histCandidates db pid encPw now)).take 5 := by
  intro r
  have hcand := candidates_filter_eq db pid encPw now
  have hidnodup := candidates_ids_nodup db pid encPw now hgood
  constructor
  · intro hr
    rw [historyFor_filter, (addToPasswordHistory_history_eq db pid encPw now).1,
      List.mem_filter] at hr
    rcases hr with ⟨hr1, hq⟩
    rcases List.mem_filter.mp hr1 with ⟨hhist, hp⟩
    rw [hcand] at hp
    have hq' : r.password_id = pid := of_decide_eq_true hq
    rcases Bool.or_eq_true .. |>.mp hp with hbad | hcont
    · rw [Bool.not_eq_true', decide_eq_false_iff_not] at hbad
      exact absurd hq' hbad
    · have hid : r.id ∈ ((sortOrd histRecentGE
          (histCandidates db pid encPw now)).take 5).map (fun r => r.id) :=
        List.elem_iff.mp hcont
      rcases List.mem_map.mp hid with ⟨k, hk, hkr⟩
      have hkc : k ∈ histCandidates db pid encPw now :=
        (mem_sortOrd histRecentGE k _).mp ((List.take_sublist 5 _).mem hk)
      have hrc : r ∈ histCandidates db pid encPw now := by
        rw [← hcand, List.mem_filter]
        exact ⟨hhist, hq⟩
      have : k = r := List.inj_on_of_nodup_map hidnodup hkc hrc hkr
      rw [← this]
      exact hk
  · intro hr
    have hrc : r ∈ histCandidates db pid encPw now :=
      (mem_sortOrd histRecentGE r _).mp ((List.take_sublist 5 _).mem hr)
    have hrhist : r ∈ (db.history ++ [newHistRow db pid encPw now]) ∧
        (fun r => (r.password_id = pid : Bool)) r = true := by
      rw [← hcand] at hrc
      exact ⟨(List.filter_sublist _).mem hrc, (List.mem_filter.mp hrc).2⟩
    rw [historyFor_filter, (addToPasswordHistory_history_eq db pid encPw now).1,
      List.mem_filter, List.mem_filter]
    refine ⟨⟨hrhist.1, ?_⟩, hrhist.2⟩
    rw [hcand]
    refine Bool.or_eq_true .. |>.mpr (Or.inr ?_)
    exact List.elem_iff.mpr (List.mem_map.mpr ⟨r, hr, rfl⟩)

theorem historyFor_self_nodup (db : PasswordDatabase) (pid : String)
    (encPw : List Nat) (now : Nat) (hgood : GoodHistory db) :
    ((db.addToPasswordHistory pid encPw now).historyFor pid).Nodup := by
  have h1 : (db.addToPasswordHistory pid encPw now).historyFor pid =
      ((db.history ++ [newHistRow db pid encPw now]).filter _).filter _ :=
    historyFor_filter _ pid |>.trans
      (by rw [(addToPasswordHistory_history_eq db pid encPw now).1])
  rw [h1]
  exact ((List.filter_sublist _).trans (List.filter_sublist _)).nodup
    ((hist_append_ids_nodup db pid encPw now hgood).of_map _)

theorem keep_nodup (db : PasswordDatabase) (pid : String)
    (encPw : List Nat) (now : Nat) (hgood : GoodHistory db) :
    ((sortOrd histRecentGE (histCandidates db pid encPw now)).take 5).Nodup :=
  (List.take_sublist 5 _).nodup
    (((candidates_ids_nodup db pid encPw now hgood).of_map _).perm
      (perm_sortOrd histRecentGE _).symm)

/-- The retained rows are a permutation of the five most recent
candidates; in particular their number is `min (previous + 1) 5`. -/
theorem historyFor_addToPasswordHistory_length (db : PasswordDatabase)
    (pid : String) (encPw : List Nat) (now : Nat) (hgood : GoodHistory db) :
    ((db.addToPasswordHistory pid encPw now).historyFor pid).length =
      min ((db.historyFor pid).length + 1) 5 := by
  have hperm : ((db.addToPasswordHistory pid encPw now).historyFor pid).Perm
      ((sortOrd histRecentGE (histCandidates db pid encPw now)).take 5) :=
    (List.perm_ext_iff_of_nodup (historyFor_self_nodup db pid encPw now hgood)
      (keep_nodup db pid encPw now hgood)).mpr
      (historyFor_addToPasswordHistory_self db pid encPw now hgood)
  rw [hperm.length_eq, List.length_take, length_sortOrd, histCandidates,
    List.length_append]
  simp [Nat.min_comm]

theorem addToPasswordHistory_goodHistory (db : PasswordDatabase) (pid : String)
    (encPw : List Nat) (now : Nat) (hgood : GoodHistory db) :
    GoodHistory (db.addToPasswordHistory pid encPw now) := by
  constructor
  · rw [(addToPasswordHistory_history_eq db pid encPw now).1]
    exact ((List.filter_sublist _).map _).nodup
      (hist_append_ids_nodup db pid encPw now hgood)
  · intro r hr
    rw [(addToPasswordHistory_history_eq db pid encPw now).1] at hr
    rw [(addToPasswordHistory_history_eq db pid encPw now).2.1]
    have hr' := (List.filter_sublist _).mem hr
    rcases List.mem_append.mp hr' with h | h
    · have := hgood.2 r h
      omega
    · rw [List.mem_singleton.mp h]
      simp only [newHistRow]
      omega

theorem addToPasswordHistory_count_le (db : PasswordDatabase) (pid pid' : String)
    (encPw : List Nat) (now : Nat) (hgood : GoodHistory db)
    (hle : ((db.historyFor pid').length ≤ 5)) :
    ((db.addToPasswordHistory pid encPw now).historyFor pid').length ≤ 5 := by
  by_cases h : pid' = pid
  · subst h
    rw [historyFor_addToPasswordHistory_length db pid' encPw now hgood]
    omega
  · rw [historyFor_addToPasswordHistory_other db pid pid' encPw now h]
    exact hle

/-- The freshly inserted row always survives the prune when the clock is
monotone (every stored timestamp is strictly older). -/
theorem newRow_retained (db : PasswordDatabase) (pid : String)
    (encPw : List Nat) (now : Nat) (hgood : GoodHistory db)
    (hfresh : ∀ r ∈ db.history, r.changed_at < now) :
    newHistRow db pid encPw now ∈
      (db.addToPasswordHistory pid encPw now).historyFor pid := by
  rw [historyFor_addToPasswordHistory_self db pid encPw now hgood]
  set cands := histCandidates db pid encPw now with hcands
  set sorted := sortOrd histRecentGE cands with hsorted
  have hmemc : newHistRow db pid encPw now ∈ cands := by
    rw [hcands, histCandidates]
    exact List.mem_append.mpr (Or.inr (List.mem_singleton.mpr rfl))
  have hmems : newHistRow db pid encPw now ∈ sorted :=
    (mem_sortOrd histRecentGE _ _).mpr hmemc
  have hnodup : sorted.Nodup :=
    ((candidates_ids_nodup db pid encPw now hgood).of_map _).perm
      (perm_sortOrd histRecentGE _).symm
  by_contra hnot
  have hmems' : newHistRow db pid encPw now ∈ sorted.take 5 ++ sorted.drop 5 := by
    rw [List.take_append_drop 5 sorted]
    exact hmems
  have hdrop : newHistRow db pid encPw now ∈ sorted.drop 5 := by
    rcases List.mem_append.mp hmems' with h | h
    · exact absurd h hnot
    · exact h
  have hlen : 5 < sorted.length := by
    by_contra hlen
    rw [List.drop_eq_nil_of_le (by omega)] at hdrop
    simp at hdrop
  have htake : (sorted.take 5).length = 5 := by
    rw [List.length_take]
    omega
  have hne5 : sorted.take 5 ≠ [] := by
    intro h
    rw [h] at htake
    simp at htake
  rcases List.exists_mem_of_ne_nil _ hne5 with ⟨y, hy⟩
  have hpair : List.Pairwise (fun a b => histRecentGE a b = true) sorted :=
    pairwise_sortOrd histRecentGE histRecentGE_total histRecentGE_trans cands
  have hpairsplit : List.Pairwise (fun a b => histRecentGE a b = true)
      (sorted.take 5 ++ sorted.drop 5) := by
    rw [List.take_append_drop 5 sorted]
    exact hpair
  have hge : histRecentGE y (newHistRow db pid encPw now) = true :=
    (List.pairwise_append.mp hpairsplit).2.2 y hy _ hdrop
  have hyne : y ≠ newHistRow db pid encPw now := by
    intro h
    have hndsplit : (sorted.take 5 ++ sorted.drop 5).Nodup := by
      rw [List.take_append_drop 5 sorted]
      exact hnodup
    rcases List.nodup_append.mp hndsplit with ⟨_, _, hdisj⟩
    exact hdisj hy (h ▸ hdrop)
  have hyc : y ∈ cands := (mem_sortOrd histRecentGE y _).mp
    ((List.take_sublist 5 sorted).mem hy)
  have hyold : y.changed_at < now := by
    rw [hcands, histCandidates] at hyc
    rcases List.mem_append.mp hyc with h | h
    · exact hfresh y ((List.filter_sublist _).mem h)
    · exact absurd (List.mem_singleton.mp h) hyne
  simp only [histRecentGE, Bool.or_eq_true, Bool.and_eq_true,
    decide_eq_true_eq, newHistRow] at hge
  omega

/-- Every pruned candidate is at most as recent as every retained row. -/
theorem pruned_rows_older (db : PasswordDatabase) (pid : String)
    (encPw : List Nat) (now : Nat) (hgood : GoodHistory db) :
    ∀ r ∈ histCandidates db pid encPw now,
      r ∉ (db.addToPasswordHistory pid encPw now).historyFor pid →
      ∀ r' ∈ (db.addToPasswordHistory pid encPw now).historyFor pid,
        r.changed_at ≤ r'.changed_at := by
  intro r hrc hrnot r' hr'
  rw [historyFor_addToPasswordHistory_self db pid encPw now hgood] at hrnot hr'
  set cands := histCandidates db pid encPw now with hcands
  set sorted := sortOrd histRecentGE cands with hsorted
  have hrs : r ∈ sorted := (mem_sortOrd histRecentGE r _).mpr hrc
  have hrs' : r ∈ sorted.take 5 ++ sorted.drop 5 := by
    rw [List.take_append_drop 5 sorted]
    exact hrs
  have hrdrop : r ∈ sorted.drop 5 := by
    rcases List.mem_append.mp hrs' with h | h
    · exact absurd h hrnot
    · exact h
  have hpair : List.Pairwise (fun a b => histRecentGE a b = true) sorted :=
    pairwise_sortOrd histRecentGE histRecentGE_total histRecentGE_trans cands
  have hpairsplit : List.Pairwise (fun a b => histRecentGE a b = true)
      (sorted.take 5 ++ sorted.drop 5) := by
    rw [List.take_append_drop 5 sorted]
    exact hpair
  have hge : histRecentGE r' r = true :=
    (List.pairwise_append.mp hpairsplit).2.2 r' hr' r hrdrop
  simp only [histRecentGE, Bool.or_eq_true, Bool.and_eq_true,
    decide_eq_true_eq] at hge
  omega

theorem sessionInv_of_frame {s s' : PMState} (h : FrameOk s s')
    (hinv : SessionInv s) : SessionInv s' := by
  rcases h with ⟨he, hl, hh, hn⟩
  rcases hinv with ⟨h1, ⟨h2a, h2b⟩, h3⟩
  refine ⟨?_, ⟨?_, ?_⟩, ?_⟩
  · intro hlf
    rw [he]
    exact h1 (hl ▸ hlf)
  · rw [hh]
    exact h2a
  · intro r hr
    rw [hh] at hr
    rw [hn]
    exact h2b r hr
  · intro pid
    have heq : s'.database.historyFor pid = s.database.historyFor pid := by
      rw [historyFor_filter, historyFor_filter, hh]
    rw [heq]
    exact h3 pid

theorem isLocked_false_of_not_true {s : PMState} (h : ¬s.isLocked = true) :
    s.isLocked = false := by
  simpa using h

theorem addPassword_frame (s : PMState) (d : PasswordInput) (fresh : String)
    (ivp ivn : List Nat) (now : Nat) :
    FrameOk s (s.addPassword d fresh ivp ivn now).2 := by
  by_cases hl : s.isLocked = true
  · simp [FrameOk, PMState.addPassword, hl]
  · rcases he : s.encryption.encryptPasswordEntry (d.id.getD fresh) d ivp ivn
      with er | enc <;>
    simp [FrameOk, PMState.addPassword, isLocked_false_of_not_true hl,
      PMState.resetAutoLockTimer, he, PasswordDatabase.savePassword]

theorem getPasswords_frame (s : PMState) (domain : Option String) :
    FrameOk s (s.getPasswords domain).2 := by
  by_cases hl : s.isLocked = true <;>
    simp [FrameOk, PMState.getPasswords, hl, isLocked_false_of_not_true,
      PMState.resetAutoLockTimer]

theorem getPassword_frame (s : PMState) (id : String) (now : Nat) :
    FrameOk s (s.getPassword id now).2 := by
  by_cases hl : s.isLocked = true
  · simp [FrameOk, PMState.getPassword, hl]
  · rcases hf : s.database.getPassword id with _ | row
    · simp [FrameOk, PMState.getPassword, isLocked_false_of_not_true hl,
        PMState.resetAutoLockTimer, hf]
    · rcases hd : s.encryption.decryptPasswordEntry row with er | dec <;>
      simp [FrameOk, PMState.getPassword, isLocked_false_of_not_true hl,
        PMState.resetAutoLockTimer, hf, hd, PasswordDatabase.updatePasswordUsage]

theorem searchPasswords_frame (s : PMState) (q : String) :
    FrameOk s (s.searchPasswords q).2 := by
  by_cases hl : s.isLocked = true <;>
    simp [FrameOk, PMState.searchPasswords, hl, isLocked_false_of_not_true,
      PMState.resetAutoLockTimer]

theorem addSecureNote_frame (s : PMState) (d : NoteInput) (fresh : String)
    (iv : List Nat) (now : Nat) :
    FrameOk s (s.addSecureNote d fresh iv now).2 := by
  by_cases hl : s.isLocked = true
  · simp [FrameOk, PMState.addSecureNote, hl]
  · rcases he : s.encryption.encrypt iv d.content with er | ec <;>
    simp [FrameOk, PMState.addSecureNote, isLocked_false_of_not_true hl,
      PMState.resetAutoLockTimer, he, PasswordDatabase.saveSecureNote]

theorem getSecureNotes_frame (s : PMState) : FrameOk s s.getSecureNotes.2 := by
  by_cases hl : s.isLocked = true <;>
    simp [FrameOk, PMState.getSecureNotes, hl, isLocked_false_of_not_true,
      PMState.resetAutoLockTimer]

theorem deleteSecureNote_frame (s : PMState) (id : String) :
    FrameOk s (s.deleteSecureNote id).2 := by
  by_cases hl : s.isLocked = true <;>
    simp [FrameOk, PMState.deleteSecureNote, hl, isLocked_false_of_not_true,
      PMState.resetAutoLockTimer, PasswordDatabase.deleteSecureNote]

theorem getStatistics_frame (s : PMState) (now : Nat) :
    FrameOk s (s.getStatistics now).2 := by
  by_cases hl : s.isLocked = true <;>
    simp [FrameOk, PMState.getStatistics, hl, isLocked_false_of_not_true,
      PMState.resetAutoLockTimer]

theorem findDuplicatePasswords_frame (s : PMState) :
    FrameOk s s.findDuplicatePasswords.2 := by
  by_cases hl : s.isLocked = true <;>
    simp [FrameOk, PMState.findDuplicatePasswords, hl, isLocked_false_of_not_true,
      PMState.resetAutoLockTimer]

theorem getAllTags_frame (s : PMState) : FrameOk s s.getAllTags.2 := by
  by_cases hl : s.isLocked = true <;>
    simp [FrameOk, PMState.getAllTags, hl, isLocked_false_of_not_true,
      PMState.resetAutoLockTimer]

theorem exportData_frame (s : PMState) (now : Nat) :
    FrameOk s (s.exportData now).2 := by
  by_cases hl : s.isLocked = true <;>
    simp [FrameOk, PMState.exportData, hl, isLocked_false_of_not_true,
      PMState.resetAutoLockTimer]

theorem generatePassword_frame (s : PMState) (o : GenOptions) (rng : Nat → Nat) :
    FrameOk s (s.generatePassword o rng).2 := by
  rcases hg : generatePasswordEnc o rng with er | p <;>
    simp [FrameOk, PMState.generatePassword, hg]

theorem foldl_savePassword_frame (now : Nat) :
    ∀ (ps : List SaveData) (db : PasswordDatabase),
      (ps.foldl (fun acc p => acc.savePassword p now) db).history = db.history ∧
      (ps.foldl (fun acc p => acc.savePassword p now) db).nextHistoryId =
        db.nextHistoryId := by
  intro ps
  induction ps with
  | nil => intro db; exact ⟨rfl, rfl⟩
  | cons p ps ih =>
    intro db
    rw [List.foldl_cons]
    exact ih (db.savePassword p now)

theorem foldl_saveSecureNote_frame (now : Nat) :
    ∀ (ns : List NoteSaveData) (db : PasswordDatabase),
      (ns.foldl (fun acc n => acc.saveSecureNote n now) db).history = db.history ∧
      (ns.foldl (fun acc n => acc.saveSecureNote n now) db).nextHistoryId =
        db.nextHistoryId := by
  intro ns
  induction ns with
  | nil => intro db; exact ⟨rfl, rfl⟩
  | cons n ns ih =>
    intro db
    rw [List.foldl_cons]
    exact ih (db.saveSecureNote n now)

theorem importData_frame (s : PMState) (ps : List SaveData)
    (ns : List NoteSaveData) (now : Nat) :
    FrameOk s (s.importData ps ns now).2 := by
  by_cases hl : s.isLocked = true
  · simp [FrameOk, PMState.importData, hl]
  · have h1 := foldl_savePassword_frame now ps s.database
    have h2 := foldl_saveSecureNote_frame now ns
      (ps.foldl (fun acc p => acc.savePassword p now) s.database)
    refine ⟨?_, ?_, ?_, ?_⟩
    · simp [PMState.importData, isLocked_false_of_not_true hl,
        PMState.resetAutoLockTimer, PasswordDatabase.importData]
    · simp [PMState.importData, isLocked_false_of_not_true hl,
        PMState.resetAutoLockTimer, PasswordDatabase.importData]
    · simp only [PMState.importData, isLocked_false_of_not_true hl,
        Bool.false_eq_true, if_false, PMState.resetAutoLockTimer,
        PasswordDatabase.importData]
      exact h2.1.trans h1.1
    · simp only [PMState.importData, isLocked_false_of_not_true hl,
        Bool.false_eq_true, if_false, PMState.resetAutoLockTimer,
        PasswordDatabase.importData]
      exact h2.2.trans h1.2

theorem updatePassword_inv (s : PMState) (id : String) (d : PasswordInput)
    (ivp ivn : List Nat) (now : Nat) (hinv : SessionInv s) :
    SessionInv (s.updatePassword id d ivp ivn now).2 := by
  rcases hinv with ⟨h1, h2, h3⟩
  by_cases hl : s.isLocked = true
  · simp only [PMState.updatePassword, hl, if_true]
    exact ⟨h1, h2, h3⟩
  · have hl' := isLocked_false_of_not_true hl
    rcases hf : s.database.getPassword id with _ | ex
    · simp only [PMState.updatePassword, hl', Bool.false_eq_true, if_false,
        PMState.resetAutoLockTimer, hf]
      exact ⟨fun _ => h1 hl', h2, h3⟩
    · rcases he : s.encryption.encryptPasswordEntry id { d with id := some id } ivp ivn
        with er | enc <;>
      · simp only [PMState.updatePassword, hl', Bool.false_eq_true, if_false,
          PMState.resetAutoLockTimer, hf, he]
        exact ⟨fun _ => h1 hl', addToPasswordHistory_goodHistory _ _ _ _ h2,
          fun pid => addToPasswordHistory_count_le _ id pid _ _ h2 (h3 pid)⟩

theorem deletePassword_inv (s : PMState) (id : String) (now : Nat)
    (hinv : SessionInv s) : SessionInv (s.deletePassword id now).2 := by
  rcases hinv with ⟨h1, h2, h3⟩
  by_cases hl : s.isLocked = true
  · simp only [PMState.deletePassword, hl, if_true]
    exact ⟨h1, h2, h3⟩
  · have hl' := isLocked_false_of_not_true hl
    rcases hf : s.database.getPassword id with _ | p <;>
    · simp only [PMState.deletePassword, hl', Bool.false_eq_true, if_false,
        PMState.resetAutoLockTimer, PasswordDatabase.deletePassword, hf]
      first
      | exact ⟨fun _ => h1 hl', h2, h3⟩
      | exact ⟨fun _ => h1 hl', addToPasswordHistory_goodHistory _ _ _ _ h2,
          fun pid => addToPasswordHistory_count_le _ id pid _ _ h2 (h3 pid)⟩

/-- Every reachable state satisfies the session invariant. -/
theorem reachable_sessionInv : ∀ s, Reachable s → SessionInv s := by
  intro s h
  induction h with
  | init =>
    refine ⟨by simp [PMState.initial], ⟨by simp [PMState.initial, PasswordDatabase.empty], ?_⟩, ?_⟩
    · intro r hr
      simp [PMState.initial, PasswordDatabase.empty] at hr
    · intro pid
      simp [PMState.initial, PasswordDatabase.empty, historyFor_filter]
  | setupStep s pw salt iv now _ ih =>
    by_cases hsc : (checkPasswordStrength pw.data).score < 3
    · simp only [PMState.setupMasterPassword, hsc, if_true]
      exact ih
    · rcases ih with ⟨_, h2, h3⟩
      simp only [PMState.setupMasterPassword, hsc, if_false,
        PasswordEncryption.initialize, PasswordDatabase.saveMasterPasswordSettings]
      exact ⟨fun _ => by simp, h2, h3⟩
  | unlockStep s pw now _ ih =>
    rcases hst : s.database.getMasterPasswordSettings with _ | st
    · simp only [PMState.unlock, hst]
      exact ih
    · rcases ih with ⟨_, h2, h3⟩
      rcases hv : PasswordEncryption.verifyMasterPassword (strBytes pw) st.salt
          st.verification_hash with ⟨valid, e'⟩
      have he' : e'.masterKey = some (deriveKey (strBytes pw) st.salt) := by
        have : (PasswordEncryption.verifyMasterPassword (strBytes pw) st.salt
            st.verification_hash).2.masterKey =
            some (deriveKey (strBytes pw) st.salt) := by
          rw [PasswordEncryption.verifyMasterPassword]
          rcases (PasswordEncryption.mk (some (deriveKey (strBytes pw) st.salt))
            (some st.salt)).decrypt st.verification_hash with er | dd <;> rfl
        rw [hv] at this
        exact this
      rcases valid
      · simp only [PMState.unlock, hst, hv, Bool.false_eq_true, if_false]
        exact ⟨fun _ => by rw [he']; simp, h2, h3⟩
      · simp only [PMState.unlock, hst, hv, if_true,
          PasswordDatabase.updateLastAccessed]
        refine ⟨fun _ => by rw [he']; simp, ⟨h2.1, h2.2⟩, h3⟩
  | lockStep s _ ih =>
    rcases ih with ⟨_, h2, h3⟩
    simp only [PMState.lock]
    exact ⟨fun h => by simp at h, h2, h3⟩
  | addPasswordStep s d fresh ivp ivn now _ ih =>
    exact sessionInv_of_frame (addPassword_frame s d fresh ivp ivn now) ih
  | getPasswordsStep s domain _ ih =>
    exact sessionInv_of_frame (getPasswords_frame s domain) ih
  | getPasswordStep s id now _ ih =>
    exact sessionInv_of_frame (getPassword_frame s id now) ih
  | updatePasswordStep s id d ivp ivn now _ ih =>
    exact updatePassword_inv s id d ivp ivn now ih
  | deletePasswordStep s id now _ ih =>
    exact deletePassword_inv s id now ih
  | searchPasswordsStep s q _ ih =>
    exact sessionInv_of_frame (searchPasswords_frame s q) ih
  | addSecureNoteStep s d fresh iv now _ ih =>
    exact sessionInv_of_frame (addSecureNote_frame s d fresh iv now) ih
  | getSecureNotesStep s _ ih =>
    exact sessionInv_of_frame (getSecureNotes_frame s) ih
  | deleteSecureNoteStep s id _ ih =>
    exact sessionInv_of_frame (deleteSecureNote_frame s id) ih
  | getStatisticsStep s now _ ih =>
    exact sessionInv_of_frame (getStatistics_frame s now) ih
  | findDuplicatesStep s _ ih =>
    exact sessionInv_of_frame (findDuplicatePasswords_frame s) ih
  | getAllTagsStep s _ ih =>
    exact sessionInv_of_frame (getAllTags_frame s) ih
  | exportDataStep s now _ ih =>
    exact sessionInv_of_frame (exportData_frame s now) ih
  | importDataStep s ps ns now _ ih =>
    exact sessionInv_of_frame (importData_frame s ps ns now) ih
  | generatePasswordStep s o rng _ ih =>
    exact sessionInv_of_frame (generatePassword_frame s o rng) ih

/-! ### C1 — key-material lifetime -/
theorem verifyMasterPassword_masterKey (pw salt vh : List Nat) :
    (PasswordEncryption.verifyMasterPassword pw salt vh).2.masterKey =
      some (deriveKey pw salt) := by
  rw [PasswordEncryption.verifyMasterPassword]
  rcases (PasswordEncryption.mk (some (deriveKey pw salt)) (some salt)).decrypt vh
    with er | d <;> rfl

set_option maxRecDepth 200000 in
/-- Counterexample to C1 as stated: a reachable state — obtained by
setting up the vault, locking it, and calling `unlock('wrong')` — is
Locked while the key derived from the failed candidate password is still
resident in the encryption object (`verifyMasterPassword` stores the
candidate key before decrypting the verifier and never clears it on
failure). -/
theorem key_resident_after_failed_unlock :
    Reachable sFailedUnlock ∧ sFailedUnlock.isLocked = true ∧
    sFailedUnlock.encryption.masterKey ≠ none := by
  refine ⟨?_, by decide, by decide⟩
  exact Reachable.unlockStep sLocked "wrong" 1001
    (Reachable.lockStep sSetup
      (Reachable.setupStep PMState.initial "Str0ngP@ss1" (List.range 32)
        (List.range 16) 1000 Reachable.init))

/-- C1 (amended): at every reachable state, derived key material is
resident whenever the session is Unlocked; `lock()` overwrites the key
buffer (with `randomFillSync`) and drops it, so after `lock()` the session
is Locked with no key resident; but a failed `unlock(password)` — although
it leaves the session Locked and reports the failure — leaves the key
derived from the failed candidate password resident in the encryption
object, so "resident if and only if Unlocked" does not hold. -/
theorem key_lifecycle_amended :
    (∀ s, Reachable s → s.isLocked = false → s.encryption.masterKey ≠ none) ∧
    (∀ s : PMState, s.lock.2.encryption.masterKey = none ∧
      s.lock.2.isLocked = true) ∧
    (∀ (s : PMState) (pw : String) (now : Nat) (st : Settings),
      s.database.settings = some st →
      (s.unlock pw now).1 ≠ .ok () →
      (s.unlock pw now).2.isLocked = s.isLocked ∧
      (s.unlock pw now).2.encryption.masterKey =
        some (deriveKey (strBytes pw) st.salt)) := by
  refine ⟨?_, ?_, ?_⟩
  · intro s h
    exact (reachable_sessionInv s h).1
  · intro s
    exact ⟨rfl, rfl⟩
  · intro s pw now st hst hfail
    have hs : s.database.getMasterPasswordSettings = some st := hst
    rcases hv : PasswordEncryption.verifyMasterPassword (strBytes pw) st.salt
        st.verification_hash with ⟨valid, e'⟩
    have he' : e'.masterKey = some (deriveKey (strBytes pw) st.salt) := by
      have h := verifyMasterPassword_masterKey (strBytes pw) st.salt
        st.verification_hash
      rw [hv] at h
      exact h
    rcases valid
    · constructor <;> simp [PMState.unlock, hs, hv, he']
    · exact absurd (by simp [PMState.unlock, hs, hv]) hfail

set_option maxRecDepth 200000 in
/-- Witness: after the concrete setup the session is Unlocked with a key
resident; after the concrete `lock()` no key is resident. -/
theorem key_lifecycle_amended_witness :
    sSetup.encryption.masterKey ≠ none ∧
    sLocked.encryption.masterKey = none := by
  have hr : Reachable sSetup :=
    Reachable.setupStep PMState.initial "Str0ngP@ss1" (List.range 32)
      (List.range 16) 1000 Reachable.init
  exact ⟨key_lifecycle_amended.1 sSetup hr (by decide),
    (key_lifecycle_amended.2.1 sSetup).1⟩

/-! ### C5 — history retention -/
set_option maxRecDepth 200000 in
/-- Counterexample to C5 as stated: in the concrete update run, the
pruning DELETE is its own single-statement commit — no committed
transaction contains the prune together with the history INSERT or with
the credential UPDATE that triggered it, so the pruning is not part of
the same atomic write. -/
theorem prune_separate_commit :
    sWithCred.updatePasswordCommits "cred1" (credInput 1) (List.replicate 16 6)
      (List.replicate 16 40) =
      [[.insertHistory "cred1"], [.pruneHistory "cred1"],
       [.replacePassword "cred1"]] ∧
    (∃ txn ∈ sWithCred.updatePasswordCommits "cred1" (credInput 1)
      (List.replicate 16 6) (List.replicate 16 40),
      DBStatement.pruneHistory "cred1" ∈ txn) ∧
    ¬(∃ txn ∈ sWithCred.updatePasswordCommits "cred1" (credInput 1)
      (List.replicate 16 6) (List.replicate 16 40),
      DBStatement.pruneHistory "cred1" ∈ txn ∧
      DBStatement.insertHistory "cred1" ∈ txn) ∧
    ¬(∃ txn ∈ sWithCred.updatePasswordCommits "cred1" (credInput 1)
      (List.replicate 16 6) (List.replicate 16 40),
      DBStatement.pruneHistory "cred1" ∈ txn ∧
      DBStatement.replacePassword "cred1" ∈ txn) := by
  refine ⟨by decide, by decide, by decide, by decide⟩

set_option maxRecDepth 1000000 in
/-- C5 (amended): after any sequence of operations every credential has
at most 5 history rows; on each push the freshly inserted row is
retained, every pruned candidate is at most as recent as every retained
row, and the retained count is `min (previous + 1) 5`; ten password
updates of one credential leave exactly its 5 most recent timestamps;
but the pruning DELETE executes as its own single-statement commit
(better-sqlite3 autocommit), separate from the write that triggered it. -/
theorem history_retention_amended :
    (∀ s, Reachable s → ∀ pid, (s.database.historyFor pid).length ≤ 5) ∧
    (∀ (db : PasswordDatabase) (pid : String) (encPw : List Nat) (now : Nat),
      GoodHistory db → (∀ r ∈ db.history, r.changed_at < now) →
      (newHistRow db pid encPw now ∈
        (db.addToPasswordHistory pid encPw now).historyFor pid) ∧
      (∀ r ∈ histCandidates db pid encPw now,
        r ∉ (db.addToPasswordHistory pid encPw now).historyFor pid →
        ∀ r' ∈ (db.addToPasswordHistory pid encPw now).historyFor pid,
          r.changed_at ≤ r'.changed_at) ∧
      ((db.addToPasswordHistory pid encPw now).historyFor pid).length =
        min ((db.historyFor pid).length + 1) 5) ∧
    ((sTenUpdates.database.historyFor "cred1").length = 5 ∧
      (sTenUpdates.database.historyFor "cred1").map (fun r => r.changed_at) =
        [2006, 2007, 2008, 2009, 2010]) ∧
    (∀ (s : PMState) (id : String) (d : PasswordInput) (ivp ivn : List Nat),
      ∀ txn ∈ s.updatePasswordCommits id d ivp ivn, txn.length = 1) := by
  refine ⟨?_, ?_, ⟨by decide, by decide⟩, ?_⟩
  · intro s h pid
    exact (reachable_sessionInv s h).2.2 pid
  · intro db pid encPw now hgood hfresh
    exact ⟨newRow_retained db pid encPw now hgood hfresh,
      pruned_rows_older db pid encPw now hgood,
      historyFor_addToPasswordHistory_length db pid encPw now hgood⟩
  · intro s id d ivp ivn txn htxn
    by_cases hl : s.isLocked = true
    · simp [PMState.updatePasswordCommits, hl] at htxn
    · rcases hf : s.database.getPassword id with _ | ex
      · simp [PMState.updatePasswordCommits, isLocked_false_of_not_true hl, hf]
          at htxn
      · rcases he : s.encryption.encryptPasswordEntry id { d with id := some id }
          ivp ivn with er | enc
        · simp [PMState.updatePasswordCommits, isLocked_false_of_not_true hl,
            hf, he, addToPasswordHistoryCommits] at htxn
          rcases htxn with h | h <;> simp [h]
        · simp [PMState.updatePasswordCommits, isLocked_false_of_not_true hl,
            hf, he, addToPasswordHistoryCommits] at htxn
          rcases htxn with h | h | h <;> simp [h]

set_option maxRecDepth 200000 in
/-- Witness: the bound applied at the concrete reachable state with one
credential, and the insert-retained fact at a concrete empty store. -/
theorem history_retention_amended_witness :
    (sWithCred.database.historyFor "cred1").length ≤ 5 ∧
    newHistRow PasswordDatabase.empty "c" [1] 7 ∈
      (PasswordDatabase.empty.addToPasswordHistory "c" [1] 7).historyFor "c" := by
  have hr : Reachable sWithCred :=
    Reachable.addPasswordStep sSetup (credInput 0) "cred1" (List.replicate 16 3)
      (List.replicate 16 4) 2000
      (Reachable.setupStep PMState.initial "Str0ngP@ss1" (List.range 32)
        (List.range 16) 1000 Reachable.init)
  exact ⟨history_retention_amended.1 sWithCred hr "cred1",
    (history_retention_amended.2.1 PasswordDatabase.empty "c" [1] 7
      ⟨by decide, by decide⟩ (by decide)).1⟩
